import Mathlib

/-!
Verification of the synthetic-data generator of the revenue-intel SaaS backend
(`backend/data/generator.py` driven by `backend/data/assumptions.py`).

Shallow embedding conventions:
* Dates are integer day numbers counted from 2023-01-01 (= `DATA_START_DATE` = 0).
  2024-12-31 is day 730 (2023 has 365 days, 2024 has 366).
* Money and multipliers are exact rationals (`ℚ`); Python's `round(x, 2)` is
  `round2`, Python's `int(x)` (truncation toward zero) is `pyInt`.
* Every call to a random source (`random.*`, `np.random.*`, `faker`,
  `uuid.uuid4`) is replaced by a field of an explicit oracle record, indexed by
  the position of the draw.  Theorems quantify over all oracles, restricted by
  hypotheses to the support of the distribution the source samples from
  (e.g. `random.randint(1, 28)` becomes an integer oracle with a `1 ≤ _ ≤ 28`
  hypothesis, `np.random.triangular(lo, m, hi)` a rational oracle bounded by
  `lo` and `hi`).
* A `while` loop over dates becomes a well-founded recursion on the remaining
  days; fallible paths (Python code that would raise) return `Option`.
-/

namespace RevenueIntel

/-- Day number of `DATA_START_DATE = date(2023, 1, 1)`: day 0. -/
def DATA_START_DATE : ℤ := 0

/-- Day number of `DATA_END_DATE = date(2024, 12, 31)`: 2023 has 365 days and
2024 has 366, so the last day of the window is day 730. -/
def DATA_END_DATE : ℤ := 730

/-- Python's `round(x, 2)`.  (CPython rounds half-to-even while `round` on `ℚ`
rounds half-up; no statement below depends on the behaviour at exact
half-cent ties.) -/
def round2 (q : ℚ) : ℚ := (round (100 * q) : ℤ) / 100

/-- Python's `round(x, 3)`, used for sales-rep performance scores. -/
def round3 (q : ℚ) : ℚ := (round (1000 * q) : ℤ) / 1000

/-- Python's `int(x)` conversion: truncation toward zero. -/
def pyInt (q : ℚ) : ℤ := if 0 ≤ q then ⌊q⌋ else ⌈q⌉

/-- Python's `date.weekday()`: Monday = 0 … Sunday = 6.  Day 0 (2023-01-01)
was a Sunday. -/
def pyWeekday (d : ℤ) : ℤ := (d + 6) % 7

/-- The seven pipeline stages, in their fixed order. -/
inductive Stage where
  | lead
  | mql
  | sql
  | opportunity
  | negotiation
  | closedWon
  | closedLost
  deriving DecidableEq, Repr

/-- Position of a stage in the seven-stage order
Lead, MQL, SQL, Opportunity, Negotiation, Closed Won, Closed Lost. -/
def Stage.idx : Stage → ℕ
  | .lead => 0
  | .mql => 1
  | .sql => 2
  | .opportunity => 3
  | .negotiation => 4
  | .closedWon => 5
  | .closedLost => 6

/-- Row of the `sales_reps` collection (`_generate_sales_reps`). -/
structure SalesRep where
  repId : String
  name : String
  startDate : ℤ
  segmentFocus : String
  performanceScore : ℚ
  isActive : Bool
  deriving DecidableEq

/-- Row of the `leads` collection (`_create_lead`). -/
structure Lead where
  leadId : String
  createdDate : ℤ
  channel : String
  companyName : String
  companySize : String
  industry : String
  estimatedAcv : ℚ
  assignedRepId : String
  deriving DecidableEq

/-- Row of the `opportunities` collection (`_generate_opportunities`). -/
structure Opportunity where
  opportunityId : String
  leadId : String
  createdDate : ℤ
  currentStage : Stage
  amount : ℚ
  closeDate : Option ℤ
  isWon : Option Bool
  lossReason : Option String
  assignedRepId : String
  companySize : String
  channel : String
  industry : String
  deriving DecidableEq

/-- Row of the `stage_transitions` collection. -/
structure StageTransition where
  transitionId : String
  opportunityId : String
  fromStage : Stage
  toStage : Stage
  transitionDate : ℤ
  daysInPreviousStage : ℤ
  deriving DecidableEq

/-- Row of the `customers` collection (`_generate_customers`).  The
`healthScore`/`churnProbability` fields are filled by the final health-score
pass, which touches no other field and no date. -/
structure Customer where
  customerId : String
  opportunityId : String
  companyName : String
  companySize : String
  industry : String
  channel : String
  startDate : ℤ
  status : String
  churnDate : Option ℤ
  currentMrr : ℚ
  initialMrr : ℚ
  assignedRepId : String
  latestNpsScore : Option ℤ
  healthScore : Option String
  churnProbability : Option ℚ
  deriving DecidableEq

/-- Row of the `usage_events` collection (`_generate_usage_events`). -/
structure UsageEvent where
  eventId : String
  customerId : String
  eventDate : ℤ
  logins : ℤ
  apiCalls : ℤ
  reportsGenerated : ℤ
  teamMembersActive : ℤ
  integrationsUsed : ℤ
  deriving DecidableEq

/-- Row of the `marketing_spend` collection (`_generate_marketing_spend`). -/
structure MarketingSpend where
  spendId : String
  channel : String
  periodStart : ℤ
  periodEnd : ℤ
  amount : ℚ
  campaignName : String
  deriving DecidableEq

/-- Row of the `mrr_movements` collection (`_generate_mrr_movements`). -/
structure MRRMovement where
  movementId : String
  customerId : String
  movementDate : ℤ
  movementType : String
  amount : ℚ
  previousMrr : ℚ
  newMrr : ℚ
  deriving DecidableEq

/-- Row of the `nps_surveys` collection (`_generate_nps_surveys`). -/
structure NpsSurvey where
  surveyId : String
  customerId : String
  surveyDate : ℤ
  score : Option ℤ
  responseText : Option String
  responded : Bool
  deriving DecidableEq

/-- Row of the `expansion_opportunities` collection
(`_generate_expansion_opportunities`). -/
structure ExpansionOpportunity where
  expansionId : String
  customerId : String
  identifiedDate : ℤ
  opportunityType : String
  estimatedValue : ℚ
  status : String
  closedDate : Option ℤ
  actualValue : Option ℚ
  deriving DecidableEq

/-! ### Calendar helpers -/

/-- Month length used by `_generate_leads` to spread a month's leads over days:
`28 if month == 2 else 30 if month in [4, 6, 9, 11] else 31` (no leap-year
check). -/
def codeDaysInMonth (m : ℕ) : ℕ :=
  if m = 2 then 28 else if m = 4 ∨ m = 6 ∨ m = 9 ∨ m = 11 then 30 else 31

/-- Gregorian leap-year test, for the real `datetime.date` arithmetic that
advances the month loops. -/
def isLeapYear (y : ℕ) : Bool := y % 4 = 0 && (y % 100 != 0 || y % 400 = 0)

/-- True number of days in a calendar month, as `date(year, month + 1, 1) -
date(year, month, 1)` computes it. -/
def realDaysInMonth (y m : ℕ) : ℕ :=
  if m = 2 then (if isLeapYear y then 29 else 28) else codeDaysInMonth m

theorem codeDaysInMonth_pos (m : ℕ) : 0 < codeDaysInMonth m := by
  unfold codeDaysInMonth; split_ifs <;> norm_num

theorem realDaysInMonth_pos (y m : ℕ) : 0 < realDaysInMonth y m := by
  unfold realDaysInMonth
  split_ifs <;> first | exact codeDaysInMonth_pos m | norm_num

/-- English month name, for marketing campaign labels
(`current_date.strftime('%B %Y')`). -/
def monthName (m : ℕ) : String :=
  if m = 1 then "January" else if m = 2 then "February" else if m = 3 then "March"
  else if m = 4 then "April" else if m = 5 then "May" else if m = 6 then "June"
  else if m = 7 then "July" else if m = 8 then "August" else if m = 9 then "September"
  else if m = 10 then "October" else if m = 11 then "November" else "December"

/-! ### Assumption constants (`assumptions.py` defaults)

Only the parameters the generator reads along claim-relevant paths are
named here; probabilities that merely parameterize a Bernoulli draw are
absorbed into the Boolean oracles. -/

/-- Monthly seasonality multipliers, `LeadGenAssumptions.seasonality`;
`dict.get(month, 1.0)` elsewhere. -/
def seasonality (m : ℕ) : ℚ :=
  if m = 1 then 17/20 else if m = 2 then 19/20 else if m = 3 then 11/10
  else if m = 4 then 21/20 else if m = 5 then 1 else if m = 6 then 19/20
  else if m = 7 then 4/5 else if m = 8 then 4/5 else if m = 9 then 23/20
  else if m = 10 then 23/20 else if m = 11 then 11/10 else if m = 12 then 17/20
  else 1

/-- `LeadGenAssumptions.base_leads_per_month`. -/
def base_leads_per_month : ℚ := 750

/-- `SalesRepAssumptions.rep_segment_focus`. -/
def repSegmentFocus : List String :=
  ["SMB", "SMB", "SMB", "SMB",
   "Mid-Market", "Mid-Market", "Mid-Market", "Mid-Market",
   "Enterprise", "Enterprise", "Enterprise", "Enterprise"]

/-- Daily usage baselines per segment, `UsageAssumptions.base_usage_by_segment`:
logins, api_calls, reports_generated, team_members_active, integrations_used. -/
structure BaseUsage where
  logins : ℚ
  apiCalls : ℚ
  reportsGenerated : ℚ
  teamMembersActive : ℚ
  integrationsUsed : ℚ

/-- Lookup `base_usage_by_segment.get(segment, base_usage_by_segment['SMB'])`. -/
def baseUsageBySegment (segment : String) : BaseUsage :=
  if segment = "SMB" then ⟨5, 100, 3, 3, 1⟩
  else if segment = "Mid-Market" then ⟨15, 500, 10, 10, 3⟩
  else if segment = "Enterprise" then ⟨50, 2000, 30, 30, 5⟩
  else ⟨5, 100, 3, 3, 1⟩

/-- `UsageAssumptions.decline_start_days`. -/
def decline_start_days : ℤ := 60

/-- `UsageAssumptions.decline_final_percentage`. -/
def decline_final_percentage : ℚ := 1/5

/-- `NPSAssumptions.survey_frequency_days`. -/
def survey_frequency_days : ℤ := 90

/-- `MarketingAssumptions.monthly_spend_by_channel`, in iteration order. -/
def monthlySpendByChannel : List (String × ℚ) :=
  [("Organic Search", 15000), ("Paid Search", 40000), ("Content Marketing", 20000),
   ("Referral", 10000), ("Events", 25000), ("Outbound", 35000), ("Partner", 15000)]

/-! ### Stage 1: sales reps (`_generate_sales_reps`) -/

/-- Random draws consumed by `_generate_sales_reps`, indexed by rep number. -/
structure RepOracle where
  /-- `np.random.normal(1.0, performance_std_dev)` -/
  perfDraw : ℕ → ℚ
  /-- `random.randint(30, 365)` -/
  startOffset : ℕ → ℤ
  /-- `fake.name()` -/
  nameDraw : ℕ → String
  /-- `random.choice(segments)` when the focus list is exhausted -/
  segmentFallback : ℕ → String

/-- Zero-padded rep number, `f'REP_{i+1:03d}'`. -/
def pad3 (n : ℕ) : String :=
  if n < 10 then "00" ++ toString n
  else if n < 100 then "0" ++ toString n
  else toString n

/-- One sales-rep row: performance clamped to
`[min_performance, max_performance] = [0.60, 1.40]` and rounded to 3 digits,
start date `DATA_START_DATE - random.randint(30, 365)` days. -/
def mkSalesRep (i : ℕ) (o : RepOracle) : SalesRep :=
  { repId := "REP_" ++ pad3 (i + 1)
    name := o.nameDraw i
    startDate := DATA_START_DATE - o.startOffset i
    segmentFocus := (repSegmentFocus.get? i).getD (o.segmentFallback i)
    performanceScore := round3 (max (3/5) (min (7/5) (o.perfDraw i)))
    isActive := true }

/-- The full `sales_reps` collection (`num_reps = 12`). -/
def generateSalesReps (o : RepOracle) : List SalesRep :=
  (List.range 12).map (fun i => mkSalesRep i o)

/-! ### Stage 2: leads (`_generate_leads` / `_create_lead`) -/

/-- Random draws consumed by lead generation.  Per-lead draws are indexed by
the global lead counter, per-month draws by the month counter. -/
structure LeadOracle where
  /-- `np.random.uniform(0.9, 1.1)` applied to the monthly volume -/
  monthlyJitter : ℕ → ℚ
  /-- `np.random.uniform(0.7, 1.3)` applied per day, per month -/
  dailyJitter : ℕ → ℕ → ℚ
  /-- `np.random.choice` over `channel_distribution` -/
  channelPick : ℕ → String
  /-- `np.random.choice` over `company_size_distribution` -/
  sizePick : ℕ → String
  /-- `np.random.choice` over `industry_distribution` -/
  industryPick : ℕ → String
  /-- `np.random.triangular` over the segment's ACV (min, median, max) -/
  acvDraw : ℕ → ℚ
  /-- `random.choice` index into the candidate rep pool -/
  repPick : ℕ → ℕ
  /-- `fake.company()` -/
  companyNameDraw : ℕ → String
  /-- `uuid.uuid4().hex[:8].upper()` — OS entropy, not seeded -/
  uuidHex : ℕ → String

/-- One lead row (`_create_lead`).  The rep is drawn from the reps whose
`segment_focus` matches the company size, falling back to the whole pool;
`random.choice` on an empty pool (no reps at all) raises, hence `Option`. -/
def createLead (i : ℕ) (leadDate : ℤ) (salesReps : List SalesRep) (o : LeadOracle) :
    Option Lead :=
  let companySize := o.sizePick i
  let matchingReps := salesReps.filter (fun r => r.segmentFocus == companySize)
  let pool := if matchingReps.isEmpty then salesReps else matchingReps
  (pool.get? (o.repPick i % pool.length)).map
    (fun rep =>
      { leadId := "LEAD_" ++ o.uuidHex i
        createdDate := leadDate
        channel := o.channelPick i
        companyName := o.companyNameDraw i
        companySize := companySize
        industry := o.industryPick i
        estimatedAcv := round2 (o.acvDraw i)
        assignedRepId := rep.repId })

/-- Dates (one entry per lead to create) contributed by a single month:
`monthly_leads = int(int(750 * seasonality) * jitter)` spread over
`codeDaysInMonth` days, breaking at the data horizon. -/
def monthLeadDates (monthIdx : ℕ) (monthStart : ℤ) (month : ℕ) (o : LeadOracle) :
    List ℤ :=
  let monthlyLeads := pyInt ((pyInt (base_leads_per_month * seasonality month) : ℚ) *
    o.monthlyJitter monthIdx)
  let dim := codeDaysInMonth month
  let leadsPerDay : ℚ := (monthlyLeads : ℚ) / (dim : ℚ)
  ((List.range dim).takeWhile (fun (day : ℕ) => monthStart + (day : ℤ) ≤ DATA_END_DATE)).flatMap
    (fun (day : ℕ) =>
      List.replicate (pyInt (leadsPerDay * o.dailyJitter monthIdx day)).toNat
        (monthStart + (day : ℤ)))

/-- Month loop of `_generate_leads`: runs while the 1st of the month is inside
the window, advancing by the true calendar month length. -/
def leadDatesLoop (o : LeadOracle) (monthIdx y m : ℕ) (monthStart : ℤ) : List ℤ :=
  if monthStart ≤ DATA_END_DATE then
    monthLeadDates monthIdx monthStart m o ++
      leadDatesLoop o (monthIdx + 1) (if m = 12 then y + 1 else y)
        (if m = 12 then 1 else m + 1) (monthStart + realDaysInMonth y m)
  else []
termination_by (DATA_END_DATE + 1 - monthStart).toNat
decreasing_by
  simp_wf
  have := realDaysInMonth_pos y m
  omega

/-- The full `leads` collection: every date produced by the month loop becomes
one `_create_lead` call, numbered by the global lead counter. -/
def generateLeads (salesReps : List SalesRep) (o : LeadOracle) : List Lead :=
  (leadDatesLoop o 0 2023 1 0).enum.filterMap
    (fun p => createLead p.1 p.2 salesReps o)

/-! ### Stage 3: opportunities and stage transitions (`_generate_opportunities`)

The conversion-probability product `min(0.95, base * segment * channel * rep)`
only parameterizes the Bernoulli draw `random.random() < final_conv`; the
draw's outcome is the oracle's `advance` bit. -/

/-- Random draws consumed by one lead's stage walk, indexed by the stage
attempt (0 = Lead→MQL, …, 4 = Negotiation→Closed Won). -/
structure OppOracle where
  /-- outcome of `random.random() < final_conv` -/
  advance : ℕ → Bool
  /-- `int(np.random.exponential(base_days * velocity_mult * cv))`, always ≥ 0 -/
  stageDaysDraw : ℕ → ℕ
  /-- `random.randint(1, 14)` added to the loss close date -/
  lossDelay : ℤ
  /-- `np.random.choice` over the stage's loss-reason table -/
  lossReasonPick : String
  /-- `uuid.uuid4().hex[:8].upper()` for transition ids -/
  transIdHex : ℕ → String

/-- Mutable state of the stage walk. -/
structure WalkState where
  currentStage : Stage
  currentDate : ℤ
  transitions : List StageTransition
  isWon : Option Bool
  closeDate : Option ℤ
  lossReason : Option String
  deriving DecidableEq

/-- The five advance attempts `zip(stages[1:], stage_keys)`. -/
def advanceTargets : List (ℕ × Stage) :=
  [(0, .mql), (1, .sql), (2, .opportunity), (3, .negotiation), (4, .closedWon)]

/-- One lead's walk through the stage chain.  Source order matters and is kept:
`current_stage` is reassigned *before* the horizon check, so a walk stopped by
the horizon already shows the next stage while `is_won`/`close_date` stay
unset; a conversion failure before MQL just stops; any later failure emits a
Closed Lost transition whose close date is `current_date + randint(1, 14)`
capped at the horizon. -/
def oppWalk (oppId : String) (o : OppOracle) :
    List (ℕ × Stage) → WalkState → WalkState
  | [], s => s
  | (i, stage) :: rest, s =>
    if o.advance i then
      let days : ℤ := max 1 ((o.stageDaysDraw i : ℤ))
      let transitionDate := s.currentDate + days
      if DATA_END_DATE < transitionDate then
        { s with currentStage := stage }
      else
        oppWalk oppId o rest
          { currentStage := stage
            currentDate := transitionDate
            transitions := s.transitions ++
              [{ transitionId := "TRANS_" ++ o.transIdHex i
                 opportunityId := oppId
                 fromStage := s.currentStage
                 toStage := stage
                 transitionDate := transitionDate
                 daysInPreviousStage := days }]
            isWon := if stage = .closedWon then some true else s.isWon
            closeDate := if stage = .closedWon then some transitionDate else s.closeDate
            lossReason := s.lossReason }
    else
      if s.currentStage = .lead then s
      else
        let closeDay := min (s.currentDate + o.lossDelay) DATA_END_DATE
        { s with
            currentStage := .closedLost
            isWon := some false
            closeDate := some closeDay
            lossReason := some o.lossReasonPick
            transitions := s.transitions ++
              [{ transitionId := "TRANS_" ++ o.transIdHex i
                 opportunityId := oppId
                 fromStage := s.currentStage
                 toStage := .closedLost
                 transitionDate := closeDay
                 daysInPreviousStage := closeDay - s.currentDate }] }

/-- Initial walk state for a lead. -/
def initialWalkState (lead : Lead) : WalkState :=
  { currentStage := .lead
    currentDate := lead.createdDate
    transitions := []
    isWon := none
    closeDate := none
    lossReason := none }

/-- One opportunity row plus its stage transitions, from one lead. -/
def generateOpportunity (lead : Lead) (oppId : String) (o : OppOracle) :
    Opportunity × List StageTransition :=
  let s := oppWalk oppId o advanceTargets (initialWalkState lead)
  ({ opportunityId := oppId
     leadId := lead.leadId
     createdDate := lead.createdDate
     currentStage := s.currentStage
     amount := lead.estimatedAcv
     closeDate := s.closeDate
     isWon := s.isWon
     lossReason := s.lossReason
     assignedRepId := lead.assignedRepId
     companySize := lead.companySize
     channel := lead.channel
     industry := lead.industry },
   s.transitions)

/-- The full `opportunities` and `stage_transitions` collections. -/
def generateOpportunities (leads : List Lead) (oracles : ℕ → OppOracle)
    (oppHex : ℕ → String) : List Opportunity × List StageTransition :=
  let rows := leads.enum.map
    (fun p => generateOpportunity p.2 ("OPP_" ++ oppHex p.1) (oracles p.1))
  (rows.map Prod.fst, (rows.map Prod.snd).flatten)

/-! ### Stage 4: customers (`_generate_customers`) -/

/-- Random draws consumed by one customer's monthly churn walk, indexed by the
30-day tick. -/
structure ChurnOracle where
  /-- outcome of `random.random() < monthly_churn_prob` -/
  churnRoll : ℕ → Bool
  /-- `random.randint(1, 28)` -/
  churnDelay : ℕ → ℤ

/-- Monthly churn walk: starting at the customer's start date, while the tick
is before the horizon, roll for churn; on churn the churn date is the tick
plus `randint(1, 28)` days, capped at the horizon. -/
def churnLoop (o : ChurnOracle) (current : ℤ) (k : ℕ) : Option ℤ :=
  if current < DATA_END_DATE then
    if o.churnRoll k then some (min (current + o.churnDelay k) DATA_END_DATE)
    else churnLoop o (current + 30) (k + 1)
  else none
termination_by (DATA_END_DATE - current).toNat
decreasing_by
  simp_wf
  omega

/-- One customer row from a won opportunity (`None` otherwise).  A won
opportunity always carries a close date; on the impossible missing-close-date
input the source would crash on `None` date arithmetic, modelled as `none`. -/
def generateCustomer (opp : Opportunity) (custHex : String)
    (companyName : String) (o : ChurnOracle) : Option Customer :=
  if opp.isWon = some true then
    match opp.closeDate with
    | none => none
    | some startDate =>
        let initialMrr := opp.amount / 12
        let churn := churnLoop o startDate 0
        some { customerId := "CUST_" ++ custHex
               opportunityId := opp.opportunityId
               companyName := companyName
               companySize := opp.companySize
               industry := opp.industry
               channel := opp.channel
               startDate := startDate
               status := if churn.isSome then "Churned" else "Active"
               churnDate := churn
               currentMrr := if churn.isSome then 0 else round2 initialMrr
               initialMrr := round2 initialMrr
               assignedRepId := opp.assignedRepId
               latestNpsScore := none
               healthScore := none
               churnProbability := none }
  else none

/-- The full `customers` collection: one customer per won opportunity, company
name looked up from the lead (falling back to `fake.company()`). -/
def generateCustomers (opps : List Opportunity) (leads : List Lead)
    (oracles : ℕ → ChurnOracle) (custHex : ℕ → String)
    (fakeCompany : ℕ → String) : List Customer :=
  opps.enum.filterMap
    (fun p =>
      generateCustomer p.2 (custHex p.1)
        ((((leads.find? (fun l => l.leadId == p.2.leadId)).map Lead.companyName)).getD
          (fakeCompany p.1))
        (oracles p.1))

/-! ### Stage 7: MRR movements (`_generate_mrr_movements`) -/

/-- Outcome of one monthly expansion/contraction tick: first
`random.random() < monthly_expansion_probability`, else
`random.random() < monthly_contraction_probability`, else nothing.  The
percentage is the `np.random.triangular` draw of that branch. -/
inductive MrrTick where
  | steady
  | expand (pct : ℚ)
  | contract (pct : ℚ)

/-- Random draws consumed by one customer's MRR-movement walk. -/
structure MrrOracle where
  /-- combined outcome of the two Bernoulli draws and the triangular draw -/
  tick : ℕ → MrrTick
  /-- `uuid.uuid4().hex[:8].upper()` for tick movement ids -/
  mvHex : ℕ → String
  /-- movement id for the New row -/
  newHex : String
  /-- movement id for the Churn row -/
  churnHex : String

/-- Monthly expansion/contraction walk: ticks every 30 days from
`start + 30` while the tick is `≤ end`; each expansion/contraction emits a
ledger row recording rounded previous/new MRR and updates the running MRR. -/
def mrrTickLoop (custId : String) (o : MrrOracle) (endDay current : ℤ) (k : ℕ)
    (mrr : ℚ) : List MRRMovement × ℚ :=
  if current ≤ endDay then
    match o.tick k with
    | .steady => mrrTickLoop custId o endDay (current + 30) (k + 1) mrr
    | .expand pct =>
        let amt := mrr * pct
        let newMrr := mrr + amt
        let rest := mrrTickLoop custId o endDay (current + 30) (k + 1) newMrr
        ({ movementId := "MRR_" ++ o.mvHex k
           customerId := custId
           movementDate := current
           movementType := "Expansion"
           amount := round2 amt
           previousMrr := round2 mrr
           newMrr := round2 newMrr } :: rest.1, rest.2)
    | .contract pct =>
        let amt := mrr * pct
        let newMrr := mrr - amt
        let rest := mrrTickLoop custId o endDay (current + 30) (k + 1) newMrr
        ({ movementId := "MRR_" ++ o.mvHex k
           customerId := custId
           movementDate := current
           movementType := "Contraction"
           amount := round2 (-amt)
           previousMrr := round2 mrr
           newMrr := round2 newMrr } :: rest.1, rest.2)
  else ([], mrr)
termination_by (endDay + 30 - current).toNat
decreasing_by
  all_goals simp_wf
  all_goals omega

/-- One customer's MRR ledger and the resulting customer record: a New row at
the start date, the monthly tick walk until churn date or horizon, then for
churned customers a terminal Churn row zeroing MRR; for everyone else the
customer's `current_mrr` is updated to the rounded running MRR. -/
def generateMrrMovements (c : Customer) (o : MrrOracle) :
    List MRRMovement × Customer :=
  let mrr0 := c.initialMrr
  let newMv : MRRMovement :=
    { movementId := "MRR_" ++ o.newHex
      customerId := c.customerId
      movementDate := c.startDate
      movementType := "New"
      amount := round2 mrr0
      previousMrr := 0
      newMrr := round2 mrr0 }
  let endDay := c.churnDate.getD DATA_END_DATE
  let r := mrrTickLoop c.customerId o endDay (c.startDate + 30) 0 mrr0
  match c.churnDate with
  | some cd =>
      if c.status = "Churned" then
        (newMv :: r.1 ++
          [{ movementId := "MRR_" ++ o.churnHex
             customerId := c.customerId
             movementDate := cd
             movementType := "Churn"
             amount := round2 (-r.2)
             previousMrr := round2 r.2
             newMrr := 0 }], c)
      else (newMv :: r.1, { c with currentMrr := round2 r.2 })
  | none => (newMv :: r.1, { c with currentMrr := round2 r.2 })

/-! ### Stage 5: usage events (`_generate_usage_events`) -/

/-- Per-day multiplicative noise draws (`np.random.uniform`) for the five
usage counters. -/
structure UsageNoise where
  loginsJ : ℚ
  apiJ : ℚ
  reportsJ : ℚ
  teamJ : ℚ
  integrationsJ : ℚ

/-- Random draws consumed by one customer's usage-event loop, indexed by day. -/
structure UsageOracle where
  noise : ℕ → UsageNoise
  /-- `uuid.uuid4().hex.upper()` -/
  eventHex : ℕ → String

/-- One usage-event row: counters are `max(0, int(base * multiplier * noise))`
(team members floored at 1), then on weekend days (`weekday() >= 5`) the
source multiplies `logins`, `api_calls`, `reports_generated` and
`team_members_active` — but not `integrations_used` — by 0.3 and truncates. -/
def mkUsageEvent (custId eid : String) (base : BaseUsage) (usageMultiplier : ℚ)
    (day : ℤ) (nz : UsageNoise) : UsageEvent :=
  let logins := max 0 (pyInt (base.logins * usageMultiplier * nz.loginsJ))
  let apiCalls := max 0 (pyInt (base.apiCalls * usageMultiplier * nz.apiJ))
  let reportsGenerated := max 0 (pyInt (base.reportsGenerated * usageMultiplier * nz.reportsJ))
  let teamMembersActive := max 1 (pyInt (base.teamMembersActive * usageMultiplier * nz.teamJ))
  let integrationsUsed := max 0 (pyInt (base.integrationsUsed * usageMultiplier * nz.integrationsJ))
  if 5 ≤ pyWeekday day then
    { eventId := eid
      customerId := custId
      eventDate := day
      logins := pyInt ((logins : ℚ) * (3/10))
      apiCalls := pyInt ((apiCalls : ℚ) * (3/10))
      reportsGenerated := pyInt ((reportsGenerated : ℚ) * (3/10))
      teamMembersActive := pyInt ((teamMembersActive : ℚ) * (3/10))
      integrationsUsed := integrationsUsed }
  else
    { eventId := eid
      customerId := custId
      eventDate := day
      logins := logins
      apiCalls := apiCalls
      reportsGenerated := reportsGenerated
      teamMembersActive := teamMembersActive
      integrationsUsed := integrationsUsed }

/-- Daily usage loop: one event per day from start to end (churn date or
horizon).  For churning customers with a nonzero `days_until_churn` the usage
multiplier ramps linearly down to `decline_final_percentage` over the last
`decline_start_days` days before churn; the multiplier persists across days. -/
def usageLoop (custId : String) (o : UsageOracle) (base : BaseUsage)
    (isChurning : Bool) (daysUntilChurn startDay endDay : ℤ) (current : ℤ)
    (k : ℕ) (mult : ℚ) : List UsageEvent :=
  if current ≤ endDay then
    let mult' :=
      if isChurning ∧ daysUntilChurn ≠ 0 then
        let daysRemaining := daysUntilChurn - (current - startDay)
        if daysRemaining < decline_start_days then
          1 - (1 - (daysRemaining : ℚ) / (decline_start_days : ℚ)) *
            (1 - decline_final_percentage)
        else mult
      else mult
    mkUsageEvent custId ("USE_" ++ o.eventHex k) base mult' current (o.noise k) ::
      usageLoop custId o base isChurning daysUntilChurn startDay endDay
        (current + 1) (k + 1) mult'
  else []
termination_by (endDay + 1 - current).toNat
decreasing_by
  simp_wf
  omega

/-- One customer's usage events.  A churned customer always carries a churn
date; on the impossible missing-churn-date input the source would crash
computing `churn_date - start`, modelled as `none`. -/
def generateUsageEvents (c : Customer) (o : UsageOracle) :
    Option (List UsageEvent) :=
  let endDay := c.churnDate.getD DATA_END_DATE
  let base := baseUsageBySegment c.companySize
  if c.status = "Churned" then
    match c.churnDate with
    | none => none
    | some cd =>
        some (usageLoop c.customerId o base true (cd - c.startDate) c.startDate
          endDay c.startDate 0 1)
  else
    some (usageLoop c.customerId o base false 0 c.startDate endDay c.startDate 0 1)

/-! ### Stage 6: marketing spend (`_generate_marketing_spend`) -/

/-- Random draws consumed by the marketing-spend loop, indexed by month and
channel position. -/
structure MktOracle where
  /-- `np.random.uniform(1 - spend_cv, 1 + spend_cv)` -/
  spendJitter : ℕ → ℕ → ℚ
  /-- `uuid.uuid4().hex[:8].upper()` -/
  spendHex : ℕ → ℕ → String

/-- Month loop of `_generate_marketing_spend`: one row per channel per month,
the period running from the 1st to the true month end, capped at the horizon. -/
def mktLoop (o : MktOracle) (monthIdx y m : ℕ) (monthStart : ℤ) :
    List MarketingSpend :=
  if monthStart ≤ DATA_END_DATE then
    let monthEnd := min (monthStart + (realDaysInMonth y m : ℤ) - 1) DATA_END_DATE
    (monthlySpendByChannel.enum.map
      (fun p =>
        { spendId := "SPEND_" ++ o.spendHex monthIdx p.1
          channel := p.2.1
          periodStart := monthStart
          periodEnd := monthEnd
          amount := round2 (p.2.2 * o.spendJitter monthIdx p.1)
          campaignName := p.2.1 ++ " - " ++ monthName m ++ " " ++ toString y })) ++
      mktLoop o (monthIdx + 1) (if m = 12 then y + 1 else y)
        (if m = 12 then 1 else m + 1) (monthStart + realDaysInMonth y m)
  else []
termination_by (DATA_END_DATE + 1 - monthStart).toNat
decreasing_by
  simp_wf
  have := realDaysInMonth_pos y m
  omega

/-- The full `marketing_spend` collection. -/
def generateMarketingSpend (o : MktOracle) : List MarketingSpend :=
  mktLoop o 0 2023 1 0

/-! ### Stage 8: NPS surveys (`_generate_nps_surveys`)

The survey side effect on `Customer.latest_nps_score` feeds only the
health-score pass, which no claim touches; the rows themselves are embedded
in full. -/

/-- Random draws consumed by one customer's NPS loop, indexed by survey
number. -/
structure NpsOracle where
  /-- outcome of `random.random() < response_rate` -/
  respondRoll : ℕ → Bool
  /-- `np.random.choice(['promoter', 'passive', 'detractor'], p=dist)` -/
  categoryPick : ℕ → ℕ
  /-- `random.choice([9, 10])` -/
  promoterHigh : ℕ → Bool
  /-- `random.choice([7, 8])` -/
  passiveHigh : ℕ → Bool
  /-- `random.randint(0, 6)` -/
  detractorPick : ℕ → ℕ
  /-- `random.choice` over the category's canned response texts -/
  textPick : ℕ → ℕ
  /-- `uuid.uuid4().hex[:8].upper()` -/
  surveyHex : ℕ → String

/-- Canned promoter response texts. -/
def promoterTexts : List (Option String) :=
  [some "Great product, very helpful for our team!",
   some "Love the features, would recommend.",
   some "Excellent support and product quality.", none]

/-- Canned passive response texts. -/
def passiveTexts : List (Option String) :=
  [some "Good product but room for improvement.",
   some "Works well for basic needs.", none]

/-- Canned detractor response texts. -/
def detractorTexts : List (Option String) :=
  [some "Too expensive for what we get.",
   some "Missing key features we need.",
   some "Support response times are slow.",
   some "Difficult to use, needs better UX.", none]

/-- One survey row.  Health bucket comes from proximity to the churn date
(guarded by churn-date truthiness in the source, so total). -/
def mkNpsSurvey (c : Customer) (o : NpsOracle) (surveyDate : ℤ) (k : ℕ) :
    NpsSurvey :=
  let responded := o.respondRoll k
  let category := o.categoryPick k % 3
  let score : Option ℤ :=
    if responded then
      if category = 0 then some (if o.promoterHigh k then 10 else 9)
      else if category = 1 then some (if o.passiveHigh k then 8 else 7)
      else some ((o.detractorPick k : ℤ) % 7)
    else none
  let responseText : Option String :=
    if responded then
      if category = 0 then
        (promoterTexts.get? (o.textPick k % promoterTexts.length)).getD none
      else if category = 1 then
        (passiveTexts.get? (o.textPick k % passiveTexts.length)).getD none
      else (detractorTexts.get? (o.textPick k % detractorTexts.length)).getD none
    else none
  { surveyId := "NPS_" ++ o.surveyHex k
    customerId := c.customerId
    surveyDate := surveyDate
    score := score
    responseText := responseText
    responded := responded }

/-- Survey loop: every `survey_frequency_days` from the start date while the
survey date is `≤ end` (churn date or horizon). -/
def npsLoop (c : Customer) (o : NpsOracle) (endDay : ℤ) (surveyDate : ℤ)
    (k : ℕ) : List NpsSurvey :=
  if surveyDate ≤ endDay then
    mkNpsSurvey c o surveyDate k ::
      npsLoop c o endDay (surveyDate + survey_frequency_days) (k + 1)
  else []
termination_by (endDay + 1 - surveyDate).toNat
decreasing_by
  simp_wf
  unfold survey_frequency_days
  omega

/-- One customer's NPS survey rows. -/
def generateNpsSurveys (c : Customer) (o : NpsOracle) : List NpsSurvey :=
  let endDay := c.churnDate.getD DATA_END_DATE
  npsLoop c o endDay (c.startDate + survey_frequency_days) 1

/-! ### Stage 9: expansion opportunities (`_generate_expansion_opportunities`) -/

/-- Random draws consumed by one customer's expansion loop, indexed by the
30-day check tick. -/
structure ExpOracle where
  /-- outcome of `random.random() < monthly_expansion_probability` -/
  ariseRoll : ℕ → Bool
  /-- `np.random.triangular(min*12, median*12, max*12)` -/
  pctDraw : ℕ → ℚ
  /-- outcome of `random.random() < expansion_conversion_rate` -/
  winRoll : ℕ → Bool
  /-- `np.random.uniform(0.8, 1.2)` applied to the actual value -/
  actualJitter : ℕ → ℚ
  /-- `random.randint(30, 90)` -/
  closeDelay : ℕ → ℤ
  /-- `random.choice(['Upsell', 'Cross-sell'])` -/
  upsellPick : ℕ → Bool
  /-- `uuid.uuid4().hex[:8].upper()` -/
  expHex : ℕ → String

/-- One expansion-opportunity row at a given check date.  Status comes from
the time left to the horizon; resolved rows close `randint(30, 90)` days
after identification, capped at the horizon.  `actual_value` is kept only
when truthy (a 0.0 value collapses to `None`, like the source's
`round(actual_value, 2) if actual_value else None`). -/
def mkExpansion (custId : String) (currentMrr : ℚ) (o : ExpOracle)
    (checkDate : ℤ) (k : ℕ) : ExpansionOpportunity :=
  let estimatedValue := currentMrr * o.pctDraw k
  let daysSinceIdentified := DATA_END_DATE - checkDate
  let resolved : String × Option ℤ × Option ℚ :=
    if daysSinceIdentified < 30 then ("Identified", none, none)
    else if daysSinceIdentified < 60 then ("In Progress", none, none)
    else
      let closedDate := min (checkDate + o.closeDelay k) DATA_END_DATE
      if o.winRoll k then
        ("Won", some closedDate, some (estimatedValue * o.actualJitter k))
      else ("Lost", some closedDate, none)
  { expansionId := "EXP_" ++ o.expHex k
    customerId := custId
    identifiedDate := checkDate
    opportunityType := if o.upsellPick k then "Upsell" else "Cross-sell"
    estimatedValue := round2 estimatedValue
    status := resolved.1
    closedDate := resolved.2.1
    actualValue := match resolved.2.2 with
      | some v => if v = 0 then none else some (round2 v)
      | none => none }

/-- Expansion check loop: every 30 days from `start + 90` while the check date
is inside the window. -/
def expLoop (custId : String) (currentMrr : ℚ) (o : ExpOracle)
    (checkDate : ℤ) (k : ℕ) : List ExpansionOpportunity :=
  if checkDate ≤ DATA_END_DATE then
    (if o.ariseRoll k then [mkExpansion custId currentMrr o checkDate k] else []) ++
      expLoop custId currentMrr o (checkDate + 30) (k + 1)
  else []
termination_by (DATA_END_DATE + 1 - checkDate).toNat
decreasing_by
  simp_wf
  omega

/-- One customer's expansion opportunities; non-active customers are skipped
entirely. -/
def generateExpansions (c : Customer) (o : ExpOracle) :
    List ExpansionOpportunity :=
  if c.status ≠ "Active" then []
  else expLoop c.customerId c.currentMrr o (c.startDate + 90) 0

/-! ### Pipeline composition (`generate_all`)

The health-score pass (stage 10) rewrites only `health_score` and
`churn_probability` of active customers; no claim mentions those fields, so
the pass is not modelled and `customers` below is the collection as of the
MRR stage.  The NPS side effect on `latest_nps_score` feeds only that pass. -/

/-- All random draws of one full generation run. -/
structure PipelineOracle where
  rep : RepOracle
  lead : LeadOracle
  opp : ℕ → OppOracle
  oppHex : ℕ → String
  churn : ℕ → ChurnOracle
  custHex : ℕ → String
  custFakeCompany : ℕ → String
  usage : ℕ → UsageOracle
  mkt : MktOracle
  mrr : ℕ → MrrOracle
  nps : ℕ → NpsOracle
  expansion : ℕ → ExpOracle

/-- The ten generated collections. -/
structure GeneratedData where
  salesReps : List SalesRep
  leads : List Lead
  opportunities : List Opportunity
  stageTransitions : List StageTransition
  customers : List Customer
  usageEvents : List UsageEvent
  marketingSpend : List MarketingSpend
  mrrMovements : List MRRMovement
  npsSurveys : List NpsSurvey
  expansionOpportunities : List ExpansionOpportunity

/-- Stage 1 of a run. -/
def pipelineSalesReps (po : PipelineOracle) : List SalesRep :=
  generateSalesReps po.rep

/-- Stage 2 of a run. -/
def pipelineLeads (po : PipelineOracle) : List Lead :=
  generateLeads (pipelineSalesReps po) po.lead

/-- Stage 3 of a run. -/
def pipelineOppRows (po : PipelineOracle) :
    List Opportunity × List StageTransition :=
  generateOpportunities (pipelineLeads po) po.opp po.oppHex

/-- Stage 4 of a run: the customer collection before the MRR stage mutates
`current_mrr`. -/
def pipelineCustomers1 (po : PipelineOracle) : List Customer :=
  generateCustomers (pipelineOppRows po).1 (pipelineLeads po) po.churn
    po.custHex po.custFakeCompany

/-- Stage 7 of a run: each customer's ledger paired with the customer record
after the stage's `current_mrr` update. -/
def pipelineMrrRows (po : PipelineOracle) :
    List (List MRRMovement × Customer) :=
  (pipelineCustomers1 po).enum.map (fun p => generateMrrMovements p.2 (po.mrr p.1))

/-- The customer collection as persisted (after the MRR stage; the later
health pass touches only `health_score`/`churn_probability`). -/
def pipelineCustomers2 (po : PipelineOracle) : List Customer :=
  (pipelineMrrRows po).map (fun r => r.2)

/-- One full generation run in stage order.  `none` models a crashed run
(only the unreachable churned-without-churn-date usage path). -/
def generateAll (po : PipelineOracle) : Option GeneratedData :=
  match (pipelineCustomers1 po).enum.mapM
    (fun p => generateUsageEvents p.2 (po.usage p.1)) with
  | none => none
  | some usageRows =>
      some { salesReps := pipelineSalesReps po
             leads := pipelineLeads po
             opportunities := (pipelineOppRows po).1
             stageTransitions := (pipelineOppRows po).2
             customers := pipelineCustomers2 po
             usageEvents := usageRows.flatten
             marketingSpend := generateMarketingSpend po.mkt
             mrrMovements := ((pipelineMrrRows po).map (fun r => r.1)).flatten
             npsSurveys := ((pipelineCustomers2 po).enum.map
               (fun p => generateNpsSurveys p.2 (po.nps p.1))).flatten
             expansionOpportunities := ((pipelineCustomers2 po).enum.map
               (fun p => generateExpansions p.2 (po.expansion p.1))).flatten }

/-! ### Assumption-set construction (`assumptions.py`, claim C6) -/

/-- Total probability mass of a discrete probability mapping (the Python dict,
as ordered key→probability pairs). -/
def sumProbs (dist : List (String × ℚ)) : ℚ := (dist.map Prod.snd).sum

/-- The `LeadGenAssumptions` dataclass.  (`seasonality` keys are months.) -/
structure LeadGenAssumptions where
  base_leads_per_month : ℚ
  seasonality : List (ℕ × ℚ)
  channel_distribution : List (String × ℚ)
  company_size_distribution : List (String × ℚ)
  industry_distribution : List (String × ℚ)
  deriving DecidableEq

/-- Dataclass construction `LeadGenAssumptions(...)`: the generated
`__init__` stores every field unchanged; the class body defines no
`__post_init__`, no validator, and no normalization of any kind, so
construction is a total function. -/
def mkLeadGenAssumptions (base : ℚ) (seas : List (ℕ × ℚ))
    (channelDist sizeDist industryDist : List (String × ℚ)) :
    LeadGenAssumptions :=
  { base_leads_per_month := base
    seasonality := seas
    channel_distribution := channelDist
    company_size_distribution := sizeDist
    industry_distribution := industryDist }

/-- Contract of `np.random.choice(list(d.keys()), p=list(d.values()))`, the
first point where the generator consumes a probability mapping: numpy
validates that the probabilities sum to 1 and raises `ValueError`
otherwise (tolerance of the float comparison modelled as exactness);
a valid call returns one of the keys. -/
def npChoice (dist : List (String × ℚ)) (i : ℕ) : Except String String :=
  if sumProbs dist = 1 then
    Except.ok (((dist.map Prod.fst).get? (i % dist.length)).getD "")
  else Except.error "probabilities do not sum to 1"

/-- A channel mapping whose probabilities sum to 1/2, not 1. -/
def badChannelDist : List (String × ℚ) :=
  [("Organic Search", 1/4), ("Paid Search", 1/4)]

/-- C6 counterexample: constructing `LeadGenAssumptions` with a channel
distribution summing to 0.5 does not fail — construction is total, returns a
record holding the non-normalized mapping unchanged, and no renormalization
happens, contradicting the claim that such construction fails with an
error. -/
theorem c6_counterexample :
    sumProbs badChannelDist ≠ 1 ∧
    (mkLeadGenAssumptions 750 [] badChannelDist [] []).channel_distribution =
      badChannelDist ∧
    sumProbs ((mkLeadGenAssumptions 750 [] badChannelDist [] []).channel_distribution) =
      1/2 := by
  refine ⟨by norm_num [badChannelDist, sumProbs], rfl,
    by norm_num [mkLeadGenAssumptions, badChannelDist, sumProbs]⟩

/-- C6 (amended): Assumption-set construction performs no validation — any
probability mapping, normalized or not, is accepted and stored unchanged
(never renormalized); a non-normalized mapping only causes an error later,
when `np.random.choice` first samples from it. -/
theorem c6_no_validation_at_construction (base : ℚ) (seas : List (ℕ × ℚ))
    (channelDist sizeDist industryDist : List (String × ℚ)) (i : ℕ)
    (hbad : sumProbs channelDist ≠ 1) :
    (mkLeadGenAssumptions base seas channelDist sizeDist industryDist).channel_distribution
        = channelDist ∧
    (mkLeadGenAssumptions base seas channelDist sizeDist industryDist).company_size_distribution
        = sizeDist ∧
    (mkLeadGenAssumptions base seas channelDist sizeDist industryDist).industry_distribution
        = industryDist ∧
    npChoice channelDist i = Except.error "probabilities do not sum to 1" := by
  exact ⟨rfl, rfl, rfl, by simp [npChoice, hbad]⟩

/-- C6 witness: the amended statement at the concrete non-normalized
mapping. -/
theorem c6_no_validation_at_construction_witness :
    sumProbs badChannelDist ≠ 1 ∧
    ((mkLeadGenAssumptions 750 [] badChannelDist [] []).channel_distribution
        = badChannelDist ∧
      (mkLeadGenAssumptions 750 [] badChannelDist [] []).company_size_distribution = [] ∧
      (mkLeadGenAssumptions 750 [] badChannelDist [] []).industry_distribution = [] ∧
      npChoice badChannelDist 0 = Except.error "probabilities do not sum to 1") :=
  ⟨by norm_num [badChannelDist, sumProbs],
   c6_no_validation_at_construction 750 [] badChannelDist [] [] 0
     (by norm_num [badChannelDist, sumProbs])⟩

/-! ### Claim C4: determinism of a full run -/

/-- A one-rep pool for exercising `_create_lead`. -/
def repsC4 : List SalesRep :=
  [{ repId := "REP_001", name := "Ann Example", startDate := -30,
     segmentFocus := "SMB", performanceScore := 1, isActive := true }]

/-- Lead-stage draws of run A: all seeded draws fixed, uuid entropy
`"AAAAAAAA"`. -/
def leadOracleRunA : LeadOracle :=
  { monthlyJitter := fun _ => 1
    dailyJitter := fun _ _ => 1
    channelPick := fun _ => "Referral"
    sizePick := fun _ => "SMB"
    industryPick := fun _ => "Technology"
    acvDraw := fun _ => 12000
    repPick := fun _ => 0
    companyNameDraw := fun _ => "Acme Corp"
    uuidHex := fun _ => "AAAAAAAA" }

/-- Lead-stage draws of run B: identical to run A in every draw produced by
the seeded generators (`random`, `np.random`, `faker`), differing only in the
`uuid.uuid4()` entropy, which no seed controls. -/
def leadOracleRunB : LeadOracle :=
  { leadOracleRunA with uuidHex := fun _ => "BBBBBBBB" }

/-- C4: with every seeded draw identical, a lead row still differs between two
runs because its id comes from `uuid.uuid4()` (OS entropy, unaffected by
`Faker.seed(42)` / `random.seed(42)` / `np.random.seed(42)`): the generated
collections are not byte-identical across equal-seed runs. -/
theorem c4_ids_not_seed_determined :
    leadOracleRunA.monthlyJitter = leadOracleRunB.monthlyJitter ∧
    leadOracleRunA.dailyJitter = leadOracleRunB.dailyJitter ∧
    leadOracleRunA.channelPick = leadOracleRunB.channelPick ∧
    leadOracleRunA.sizePick = leadOracleRunB.sizePick ∧
    leadOracleRunA.industryPick = leadOracleRunB.industryPick ∧
    leadOracleRunA.acvDraw = leadOracleRunB.acvDraw ∧
    leadOracleRunA.repPick = leadOracleRunB.repPick ∧
    leadOracleRunA.companyNameDraw = leadOracleRunB.companyNameDraw ∧
    createLead 0 5 repsC4 leadOracleRunA ≠ createLead 0 5 repsC4 leadOracleRunB := by
  refine ⟨rfl, rfl, rfl, rfl, rfl, rfl, rfl, rfl, ?_⟩
  decide

/-! ### Claim C9: weekend usage dampener -/

/-- C9 (amended): on a weekend day, `logins`, `api_calls`,
`reports_generated` and `team_members_active` are truncated to 0.3 of the
value computed for the same draws on a weekday — but `integrations_used` is
left at its undampened weekday value. -/
theorem c9_weekend_dampener (custId eid : String) (base : BaseUsage)
    (mult : ℚ) (day day2 : ℤ) (nz : UsageNoise)
    (hwe : 5 ≤ pyWeekday day) (hwd : pyWeekday day2 < 5) :
    (mkUsageEvent custId eid base mult day nz).logins =
      pyInt (((mkUsageEvent custId eid base mult day2 nz).logins : ℚ) * (3/10)) ∧
    (mkUsageEvent custId eid base mult day nz).apiCalls =
      pyInt (((mkUsageEvent custId eid base mult day2 nz).apiCalls : ℚ) * (3/10)) ∧
    (mkUsageEvent custId eid base mult day nz).reportsGenerated =
      pyInt (((mkUsageEvent custId eid base mult day2 nz).reportsGenerated : ℚ) * (3/10)) ∧
    (mkUsageEvent custId eid base mult day nz).teamMembersActive =
      pyInt (((mkUsageEvent custId eid base mult day2 nz).teamMembersActive : ℚ) * (3/10)) ∧
    (mkUsageEvent custId eid base mult day nz).integrationsUsed =
      (mkUsageEvent custId eid base mult day2 nz).integrationsUsed := by
  have h2 : ¬ (5 ≤ pyWeekday day2) := by omega
  simp [mkUsageEvent, hwe, h2]

/-- C9 witness: the amended statement at Saturday 2023-01-07 (day 6) against
Tuesday 2023-01-03 (day 2), SMB baseline, unit noise. -/
theorem c9_weekend_dampener_witness :
    (5 : ℤ) ≤ pyWeekday 6 ∧ pyWeekday 2 < 5 ∧
    ((mkUsageEvent "C" "E" (baseUsageBySegment "SMB") 1 6 ⟨1, 1, 1, 1, 1⟩).logins =
        pyInt (((mkUsageEvent "C" "E" (baseUsageBySegment "SMB") 1 2 ⟨1, 1, 1, 1, 1⟩).logins : ℚ) * (3/10)) ∧
      (mkUsageEvent "C" "E" (baseUsageBySegment "SMB") 1 6 ⟨1, 1, 1, 1, 1⟩).apiCalls =
        pyInt (((mkUsageEvent "C" "E" (baseUsageBySegment "SMB") 1 2 ⟨1, 1, 1, 1, 1⟩).apiCalls : ℚ) * (3/10)) ∧
      (mkUsageEvent "C" "E" (baseUsageBySegment "SMB") 1 6 ⟨1, 1, 1, 1, 1⟩).reportsGenerated =
        pyInt (((mkUsageEvent "C" "E" (baseUsageBySegment "SMB") 1 2 ⟨1, 1, 1, 1, 1⟩).reportsGenerated : ℚ) * (3/10)) ∧
      (mkUsageEvent "C" "E" (baseUsageBySegment "SMB") 1 6 ⟨1, 1, 1, 1, 1⟩).teamMembersActive =
        pyInt (((mkUsageEvent "C" "E" (baseUsageBySegment "SMB") 1 2 ⟨1, 1, 1, 1, 1⟩).teamMembersActive : ℚ) * (3/10)) ∧
      (mkUsageEvent "C" "E" (baseUsageBySegment "SMB") 1 6 ⟨1, 1, 1, 1, 1⟩).integrationsUsed =
        (mkUsageEvent "C" "E" (baseUsageBySegment "SMB") 1 2 ⟨1, 1, 1, 1, 1⟩).integrationsUsed) :=
  ⟨by decide, by decide,
   c9_weekend_dampener "C" "E" (baseUsageBySegment "SMB") 1 6 2 ⟨1, 1, 1, 1, 1⟩
     (by decide) (by decide)⟩

/-- C9 counterexample: on Saturday (day 6) with SMB baseline and unit noise,
`integrations_used` stays 1, while the uniform-dampener claim demands
`int(1 * 0.3) = 0`. -/
theorem c9_counterexample :
    (5 : ℤ) ≤ pyWeekday 6 ∧
    (mkUsageEvent "C" "E" (baseUsageBySegment "SMB") 1 6 ⟨1, 1, 1, 1, 1⟩).integrationsUsed = 1 ∧
    (mkUsageEvent "C" "E" (baseUsageBySegment "SMB") 1 6 ⟨1, 1, 1, 1, 1⟩).integrationsUsed ≠
      pyInt (((mkUsageEvent "C" "E" (baseUsageBySegment "SMB") 1 2 ⟨1, 1, 1, 1, 1⟩).integrationsUsed : ℚ) * (3/10)) := by
  refine ⟨by decide, ?_, ?_⟩ <;>
    norm_num [mkUsageEvent, baseUsageBySegment, pyInt, pyWeekday]

/-! ### MRR-ledger lemmas (claims C1, C2, C10) -/

/-- Adjacent-row consistency of the MRR ledger:
`movement[i].new_mrr = movement[i+1].previous_mrr`. -/
def mrrLink (a b : MRRMovement) : Prop := a.newMrr = b.previousMrr

/-- Chronological ordering of ledger rows. -/
def dateLe (a b : MRRMovement) : Prop := a.movementDate ≤ b.movementDate

/-- Support of the expansion/contraction percentage draws:
`np.random.triangular(0.10, 0.25, 0.50)` and
`np.random.triangular(0.10, 0.20, 0.40)` respectively. -/
def MrrOracleBounds (o : MrrOracle) : Prop :=
  ∀ k p, (o.tick k = .expand p → 1/10 ≤ p ∧ p ≤ 1/2) ∧
    (o.tick k = .contract p → 1/10 ≤ p ∧ p ≤ 2/5)

theorem round2_round2 (q : ℚ) : round2 (round2 q) = round2 q := by
  unfold round2
  have : (100 : ℚ) * ((round (100 * q) : ℤ) / 100) = ((round (100 * q) : ℤ) : ℚ) := by
    field_simp
  rw [this, round_intCast]

theorem round2_nonneg (q : ℚ) (hq : 0 ≤ q) : 0 ≤ round2 q := by
  unfold round2
  have h1 : (0 : ℤ) ≤ round (100 * q) := by
    rw [round_eq]
    exact Int.floor_nonneg.mpr (by linarith)
  positivity

theorem round2_zero : round2 0 = 0 := by
  norm_num [round2]

/-- Invariants of the monthly tick walk: the emitted rows form a consistent
chain, the first row's `previous_mrr` is the rounded entry MRR, the last
row's `new_mrr` is the rounded exit MRR, and an empty walk leaves the MRR
untouched. -/
theorem mrrTickLoop_chain (custId : String) (o : MrrOracle) (endDay : ℤ) :
    ∀ (current : ℤ) (k : ℕ) (mrr : ℚ),
    List.Chain' mrrLink (mrrTickLoop custId o endDay current k mrr).1 ∧
    (∀ h ∈ (mrrTickLoop custId o endDay current k mrr).1.head?,
      h.previousMrr = round2 mrr) ∧
    ((mrrTickLoop custId o endDay current k mrr).1 = [] →
      (mrrTickLoop custId o endDay current k mrr).2 = mrr) ∧
    (∀ l ∈ (mrrTickLoop custId o endDay current k mrr).1.getLast?,
      l.newMrr = round2 (mrrTickLoop custId o endDay current k mrr).2) := by
  intro current k mrr
  induction current, k, mrr using mrrTickLoop.induct custId o endDay with
  | case1 current k mrr h he ih =>
      rw [mrrTickLoop]
      simpa [if_pos h, he] using ih
  | case2 current k mrr h pct he amt newMrr ih =>
      rw [mrrTickLoop]
      simp only [if_pos h, he]
      obtain ⟨ihChain, ihHead, ihNil, ihLast⟩ := ih
      rcases hr : (mrrTickLoop custId o endDay (current + 30) (k + 1)
        (mrr + mrr * pct)).1 with _ | ⟨b, tl⟩
      · rw [hr] at ihNil
        have h2 : (mrrTickLoop custId o endDay (current + 30) (k + 1)
            (mrr + mrr * pct)).2 = mrr + mrr * pct := ihNil rfl
        refine ⟨List.chain'_singleton _, ?_, by simp, ?_⟩
        · intro hh hmem
          simp only [List.head?_cons, Option.mem_def, Option.some.injEq] at hmem
          subst hmem
          rfl
        · intro l hl
          simp only [List.getLast?_singleton, Option.mem_def, Option.some.injEq] at hl
          subst hl
          rw [h2]
      · rw [hr] at ihChain ihHead ihLast
        refine ⟨?_, ?_, ?_, ?_⟩
        · exact List.chain'_cons'.mpr ⟨fun hh hmem => by
            simp only [List.head?_cons, Option.mem_def, Option.some.injEq] at hmem
            subst hmem
            simpa [mrrLink] using (ihHead b (by simp)).symm, ihChain⟩
        · intro hh hmem
          simp only [List.head?_cons, Option.mem_def, Option.some.injEq] at hmem
          subst hmem
          rfl
        · intro habs; cases habs
        · intro l hl
          rw [List.getLast?_cons_cons] at hl
          exact ihLast l hl
  | case3 current k mrr h pct he amt newMrr ih =>
      rw [mrrTickLoop]
      simp only [if_pos h, he]
      obtain ⟨ihChain, ihHead, ihNil, ihLast⟩ := ih
      rcases hr : (mrrTickLoop custId o endDay (current + 30) (k + 1)
        (mrr - mrr * pct)).1 with _ | ⟨b, tl⟩
      · rw [hr] at ihNil
        have h2 : (mrrTickLoop custId o endDay (current + 30) (k + 1)
            (mrr - mrr * pct)).2 = mrr - mrr * pct := ihNil rfl
        refine ⟨List.chain'_singleton _, ?_, by simp, ?_⟩
        · intro hh hmem
          simp only [List.head?_cons, Option.mem_def, Option.some.injEq] at hmem
          subst hmem
          rfl
        · intro l hl
          simp only [List.getLast?_singleton, Option.mem_def, Option.some.injEq] at hl
          subst hl
          rw [h2]
      · rw [hr] at ihChain ihHead ihLast
        refine ⟨?_, ?_, ?_, ?_⟩
        · exact List.chain'_cons'.mpr ⟨fun hh hmem => by
            simp only [List.head?_cons, Option.mem_def, Option.some.injEq] at hmem
            subst hmem
            simpa [mrrLink] using (ihHead b (by simp)).symm, ihChain⟩
        · intro hh hmem
          simp only [List.head?_cons, Option.mem_def, Option.some.injEq] at hmem
          subst hmem
          rfl
        · intro habs; cases habs
        · intro l hl
          rw [List.getLast?_cons_cons] at hl
          exact ihLast l hl
  | case4 current k mrr h =>
      rw [mrrTickLoop]
      simp [if_neg h]

/-- Date bounds and chronological ordering of the tick walk's rows. -/
theorem mrrTickLoop_dates (custId : String) (o : MrrOracle) (endDay : ℤ) :
    ∀ (current : ℤ) (k : ℕ) (mrr : ℚ),
    (∀ mv ∈ (mrrTickLoop custId o endDay current k mrr).1,
      current ≤ mv.movementDate ∧ mv.movementDate ≤ endDay) ∧
    List.Pairwise dateLe (mrrTickLoop custId o endDay current k mrr).1 := by
  intro current k mrr
  induction current, k, mrr using mrrTickLoop.induct custId o endDay with
  | case1 current k mrr h he ih =>
      rw [mrrTickLoop]
      simp only [if_pos h, he]
      exact ⟨fun mv hmv => ⟨by linarith [(ih.1 mv hmv).1], (ih.1 mv hmv).2⟩, ih.2⟩
  | case2 current k mrr h pct he amt newMrr ih =>
      rw [mrrTickLoop]
      simp only [if_pos h, he]
      refine ⟨?_, ?_⟩
      · intro mv hmv
        rcases List.mem_cons.mp hmv with rfl | hmv'
        · exact ⟨le_refl _, h⟩
        · exact ⟨by linarith [(ih.1 mv hmv').1], (ih.1 mv hmv').2⟩
      · exact List.pairwise_cons.mpr
          ⟨fun b hb => by
            have := (ih.1 b hb).1
            simp only [dateLe]
            linarith, ih.2⟩
  | case3 current k mrr h pct he amt newMrr ih =>
      rw [mrrTickLoop]
      simp only [if_pos h, he]
      refine ⟨?_, ?_⟩
      · intro mv hmv
        rcases List.mem_cons.mp hmv with rfl | hmv'
        · exact ⟨le_refl _, h⟩
        · exact ⟨by linarith [(ih.1 mv hmv').1], (ih.1 mv hmv').2⟩
      · exact List.pairwise_cons.mpr
          ⟨fun b hb => by
            have := (ih.1 b hb).1
            simp only [dateLe]
            linarith, ih.2⟩
  | case4 current k mrr h =>
      rw [mrrTickLoop]
      simp [if_neg h]

/-- A tick walk on the support of the configured distributions keeps the
running MRR nonnegative. -/
theorem mrrTickLoop_nonneg (custId : String) (o : MrrOracle) (endDay : ℤ)
    (hb : MrrOracleBounds o) :
    ∀ (current : ℤ) (k : ℕ) (mrr : ℚ), 0 ≤ mrr →
    0 ≤ (mrrTickLoop custId o endDay current k mrr).2 := by
  intro current k mrr
  induction current, k, mrr using mrrTickLoop.induct custId o endDay with
  | case1 current k mrr h he ih =>
      intro hm
      rw [mrrTickLoop]
      simp only [if_pos h, he]
      exact ih hm
  | case2 current k mrr h pct he amt newMrr ih =>
      intro hm
      rw [mrrTickLoop]
      simp only [if_pos h, he]
      refine ih ?_
      have hp := ((hb k pct).1 he).1
      show 0 ≤ mrr + mrr * pct
      have hmul : 0 ≤ mrr * pct := mul_nonneg hm (by linarith)
      linarith
  | case3 current k mrr h pct he amt newMrr ih =>
      intro hm
      rw [mrrTickLoop]
      simp only [if_pos h, he]
      refine ih ?_
      have hp := ((hb k pct).2 he).2
      show 0 ≤ mrr - mrr * pct
      have hmul : 0 ≤ mrr * (1 - pct) := mul_nonneg hm (by linarith)
      nlinarith [hmul]
  | case4 current k mrr h =>
      intro hm
      rw [mrrTickLoop]
      simpa [if_neg h] using hm

/-- A churn date returned by the monthly churn walk is strictly after the
walk's entry date and on or before the horizon (churn delays are
`randint(1, 28)`, so ≥ 1). -/
theorem churnLoop_some_bounds (o : ChurnOracle) (hd : ∀ k, 1 ≤ o.churnDelay k) :
    ∀ (current : ℤ) (k : ℕ) (cd : ℤ), churnLoop o current k = some cd →
    current + 1 ≤ cd ∧ cd ≤ DATA_END_DATE := by
  intro current k
  induction current, k using churnLoop.induct o with
  | case1 current k h hr =>
      intro cd hcd
      rw [churnLoop] at hcd
      simp only [h, if_pos, hr, Option.some.injEq] at hcd
      have := hd k
      subst hcd
      constructor
      · exact le_min (by omega) (by omega)
      · exact min_le_right _ _
  | case2 current k h hr ih =>
      intro cd hcd
      rw [churnLoop] at hcd
      simp only [h, if_pos, hr] at hcd
      have := ih cd hcd
      omega
  | case3 current k h =>
      intro cd hcd
      rw [churnLoop] at hcd
      simp [h] at hcd

/-- Inversion of `generateCustomer`: the fields a successful construction
guarantees. -/
theorem generateCustomer_fields (opp : Opportunity) (custHex companyName : String)
    (co : ChurnOracle) (c : Customer)
    (hc : generateCustomer opp custHex companyName co = some c) :
    opp.isWon = some true ∧
    opp.closeDate = some c.startDate ∧
    c.churnDate = churnLoop co c.startDate 0 ∧
    (c.status = "Churned" ↔ c.churnDate.isSome) ∧
    (c.status = "Churned" ∨ c.status = "Active") ∧
    c.initialMrr = round2 (opp.amount / 12) ∧
    c.currentMrr = (if c.churnDate.isSome then 0 else round2 (opp.amount / 12)) ∧
    c.opportunityId = opp.opportunityId := by
  unfold generateCustomer at hc
  split_ifs at hc with hw
  · rcases hcd : opp.closeDate with _ | sd
    · rw [hcd] at hc; cases hc
    · rw [hcd] at hc
      simp only [Option.some.injEq] at hc
      subst hc
      rcases hch : churnLoop co sd 0 with _ | cd <;> simp [hw, hcd, hch]

/-- The MRR-movement stage only rewrites `current_mrr`; every other customer
field survives unchanged. -/
theorem generateMrrMovements_fixed (c : Customer) (o : MrrOracle) :
    (generateMrrMovements c o).2.status = c.status ∧
    (generateMrrMovements c o).2.churnDate = c.churnDate ∧
    (generateMrrMovements c o).2.startDate = c.startDate ∧
    (generateMrrMovements c o).2.customerId = c.customerId ∧
    (generateMrrMovements c o).2.initialMrr = c.initialMrr := by
  unfold generateMrrMovements
  rcases hcd : c.churnDate with _ | cd
  · simp [hcd]
  · simp only [hcd]
    split_ifs <;> simp [hcd]

/-- A won opportunity with a close date always yields a customer, whatever
the churn oracle does. -/
theorem generateCustomer_isSome (opp : Opportunity) (custHex companyName : String)
    (co : ChurnOracle) (hw : opp.isWon = some true) (hcd : opp.closeDate.isSome) :
    (generateCustomer opp custHex companyName co).isSome := by
  unfold generateCustomer
  rcases h : opp.closeDate with _ | sd
  · rw [h] at hcd; cases hcd
  · simp [hw, h]

/-- C1: for every generated customer, the MRR ledger taken in its generated
(chronologically nondecreasing) order opens with a New movement whose
`previous_mrr` is 0, links every row's `new_mrr` to the next row's
`previous_mrr`, and for churned customers closes with a Churn movement whose
`new_mrr` is 0. -/
theorem c1_mrr_ledger_chain (opp : Opportunity) (custHex companyName : String)
    (co : ChurnOracle) (mo : MrrOracle) (c : Customer)
    (hdelay : ∀ k, 1 ≤ co.churnDelay k)
    (hc : generateCustomer opp custHex companyName co = some c) :
    ((generateMrrMovements c mo).1.head?.map
      (fun h => (h.movementType, h.previousMrr))) = some ("New", 0) ∧
    List.Chain' mrrLink (generateMrrMovements c mo).1 ∧
    List.Pairwise dateLe (generateMrrMovements c mo).1 ∧
    (c.status = "Churned" →
      ((generateMrrMovements c mo).1.getLast?.map
        (fun l => (l.movementType, l.newMrr))) = some ("Churn", 0)) := by
  obtain ⟨hw, hclose, hchurn, hiff, hstat, hinit, hcur, hoid⟩ :=
    generateCustomer_fields opp custHex companyName co c hc
  rcases hcd : c.churnDate with _ | cd
  · -- active customer: ledger is New followed by the tick walk
    have hchain := mrrTickLoop_chain c.customerId mo DATA_END_DATE
      (c.startDate + 30) 0 c.initialMrr
    have hdates := mrrTickLoop_dates c.customerId mo DATA_END_DATE
      (c.startDate + 30) 0 c.initialMrr
    have hnost : ¬ c.status = "Churned" := by
      intro habs
      rw [hcd] at hiff
      simpa using hiff.mp habs
    unfold generateMrrMovements
    simp only [hcd, Option.getD_none, Option.getD_some]
    refine ⟨rfl, ?_, ?_, fun habs => absurd habs hnost⟩
    · refine List.chain'_cons'.mpr ⟨?_, hchain.1⟩
      intro h hh
      have := hchain.2.1 h hh
      simp only [mrrLink, this]
    · refine List.pairwise_cons.mpr ⟨?_, hdates.2⟩
      intro b hb
      have := (hdates.1 b hb).1
      simp only [dateLe]
      linarith
  · -- churned customer: ledger is New, the tick walk, then the Churn row
    have hst : c.status = "Churned" := by
      rw [hcd] at hiff
      simpa using hiff.mpr (by simp)
    have hcdbound : c.startDate + 1 ≤ cd ∧ cd ≤ DATA_END_DATE := by
      refine churnLoop_some_bounds co hdelay c.startDate 0 cd ?_
      rw [← hchurn, hcd]
    have hchain := mrrTickLoop_chain c.customerId mo cd
      (c.startDate + 30) 0 c.initialMrr
    have hdates := mrrTickLoop_dates c.customerId mo cd
      (c.startDate + 30) 0 c.initialMrr
    unfold generateMrrMovements
    simp only [hcd, Option.getD_some, if_pos hst]
    refine ⟨rfl, ?_, ?_, fun _ => ?_⟩
    · -- chain across New :: ticks ++ [Churn]
      refine List.chain'_cons'.mpr ⟨?_, ?_⟩
      · intro h hh
        rcases hr : (mrrTickLoop c.customerId mo cd (c.startDate + 30) 0
          c.initialMrr).1 with _ | ⟨b, tl⟩
        · rw [hr] at hh
          simp only [List.append_eq, List.nil_append, List.head?_cons,
            Option.mem_def, Option.some.injEq] at hh
          subst hh
          simp only [mrrLink]
          rw [hchain.2.2.1 hr]
        · rw [hr] at hh
          simp only [List.append_eq, List.cons_append, List.head?_cons,
            Option.mem_def, Option.some.injEq] at hh
          subst hh
          have := hchain.2.1 b (by rw [hr]; simp)
          simp only [mrrLink, this]
      · refine List.chain'_append.mpr ⟨hchain.1, List.chain'_singleton _, ?_⟩
        intro x hx y hy
        simp only [List.head?_cons, Option.mem_def, Option.some.injEq] at hy
        subst hy
        have := hchain.2.2.2 x hx
        simp only [mrrLink, this]
    · -- chronological order
      refine List.pairwise_cons.mpr ⟨?_, ?_⟩
      · intro b hb
        rcases List.mem_append.mp hb with hb' | hb'
        · have := (hdates.1 b hb').1
          simp only [dateLe]
          linarith
        · simp only [List.mem_singleton] at hb'
          subst hb'
          simp only [dateLe]
          omega
      · refine List.pairwise_append.mpr ⟨hdates.2, List.pairwise_singleton _ _, ?_⟩
        intro x hx y hy
        simp only [List.mem_singleton] at hy
        subst hy
        have := (hdates.1 x hx).2
        simp only [dateLe]
        linarith
    · -- terminal Churn row
      rw [show ∀ (a : MRRMovement) (l₁ l₂ : List MRRMovement),
          a :: l₁ ++ l₂ = (a :: l₁) ++ l₂ from fun _ _ _ => rfl,
        List.getLast?_concat]
      rfl

/-- C1 witness inputs: a won opportunity closing on day 729 whose customer
churns at the first tick. -/
def oppW : Opportunity :=
  { opportunityId := "OPP_W", leadId := "LEAD_W", createdDate := 720,
    currentStage := .closedWon, amount := 12000, closeDate := some 729,
    isWon := some true, lossReason := none, assignedRepId := "REP_001",
    companySize := "SMB", channel := "Referral", industry := "Technology" }

/-- Churn oracle that fires at the first tick with delay 1. -/
def churnOracleW : ChurnOracle :=
  { churnRoll := fun _ => true, churnDelay := fun _ => 1 }

/-- The customer `generateCustomer` produces from `oppW` under
`churnOracleW`. -/
def custW : Customer :=
  { customerId := "CUST_W", opportunityId := "OPP_W", companyName := "Acme W",
    companySize := "SMB", industry := "Technology", channel := "Referral",
    startDate := 729, status := "Churned", churnDate := some 730,
    currentMrr := 0, initialMrr := 1000, assignedRepId := "REP_001",
    latestNpsScore := none, healthScore := none, churnProbability := none }

/-- A quiet MRR oracle (every tick steady). -/
def mrrOracleW : MrrOracle :=
  { tick := fun _ => .steady, mvHex := fun i => toString i,
    newHex := "N", churnHex := "C" }

theorem generateCustomer_custW :
    generateCustomer oppW "W" "Acme W" churnOracleW = some custW := by
  unfold generateCustomer
  simp only [oppW]
  rw [churnLoop]
  norm_num [churnOracleW, custW, DATA_END_DATE, round2]
  decide

/-- C1 witness: the ledger invariants at the concrete churned customer. -/
theorem c1_mrr_ledger_chain_witness :
    ((generateMrrMovements custW mrrOracleW).1.head?.map
      (fun h => (h.movementType, h.previousMrr))) = some ("New", 0) ∧
    List.Chain' mrrLink (generateMrrMovements custW mrrOracleW).1 ∧
    List.Pairwise dateLe (generateMrrMovements custW mrrOracleW).1 ∧
    ((generateMrrMovements custW mrrOracleW).1.getLast?.map
      (fun l => (l.movementType, l.newMrr))) = some ("Churn", 0) := by
  have h := c1_mrr_ledger_chain oppW "W" "Acme W" churnOracleW mrrOracleW custW
    (fun k => by norm_num [churnOracleW]) generateCustomer_custW
  exact ⟨h.1, h.2.1, h.2.2.1, h.2.2.2 rfl⟩

/-- C10: after the MRR stage, the customer's `current_mrr` equals the
`new_mrr` of the last generated movement of its ledger (0 for churned
customers via the terminal Churn row). -/
theorem c10_current_mrr_is_last_new_mrr (opp : Opportunity)
    (custHex companyName : String) (co : ChurnOracle) (mo : MrrOracle)
    (c : Customer)
    (hc : generateCustomer opp custHex companyName co = some c) :
    ((generateMrrMovements c mo).1.getLast?.map MRRMovement.newMrr) =
      some (generateMrrMovements c mo).2.currentMrr := by
  obtain ⟨hw, hclose, hchurn, hiff, hstat, hinit, hcur, hoid⟩ :=
    generateCustomer_fields opp custHex companyName co c hc
  rcases hcd : c.churnDate with _ | cd
  · have hchain := mrrTickLoop_chain c.customerId mo DATA_END_DATE
      (c.startDate + 30) 0 c.initialMrr
    unfold generateMrrMovements
    simp only [hcd, Option.getD_none]
    rcases hr : (mrrTickLoop c.customerId mo DATA_END_DATE (c.startDate + 30) 0
      c.initialMrr).1 with _ | ⟨b, tl⟩
    · have h2 := hchain.2.2.1 hr
      simp only [List.getLast?_singleton, Option.map_some', h2]
    · rw [List.getLast?_cons_cons]
      rcases hl : (b :: tl).getLast? with _ | l
      · simp at hl
      · have := hchain.2.2.2 l (by rw [hr, hl]; rfl)
        simp only [hl, Option.map_some', this]
  · have hst : c.status = "Churned" := by
      rw [hcd] at hiff
      simpa using hiff.mpr (by simp)
    have hcur0 : c.currentMrr = 0 := by
      rw [hcur, hcd]
      rfl
    unfold generateMrrMovements
    simp only [hcd, Option.getD_some, if_pos hst, List.append_eq]
    rw [show ∀ (a : MRRMovement) (l₁ l₂ : List MRRMovement),
        a :: l₁ ++ l₂ = (a :: l₁) ++ l₂ from fun _ _ _ => rfl,
      List.getLast?_concat]
    simp only [Option.map_some']
    rw [hcur0]

/-- C10 witness: the equality at the concrete churned customer. -/
theorem c10_current_mrr_is_last_new_mrr_witness :
    ((generateMrrMovements custW mrrOracleW).1.getLast?.map MRRMovement.newMrr) =
      some (generateMrrMovements custW mrrOracleW).2.currentMrr :=
  c10_current_mrr_is_last_new_mrr oppW "W" "Acme W" churnOracleW mrrOracleW custW
    generateCustomer_custW

/-- C2 (amended): after the MRR stage, every customer's `current_mrr` is
nonnegative, `status = 'Churned'` holds exactly when `churn_date` is set, and
churned customers have `current_mrr = 0`.  The remaining direction of the
claimed three-way equivalence — `current_mrr = 0` implies churned — fails on
the code: repeated maximal contractions can round an active customer's MRR
down to 0 (see the counterexample). -/
theorem c2_mrr_status_invariants (opp : Opportunity) (custHex companyName : String)
    (co : ChurnOracle) (mo : MrrOracle) (c : Customer)
    (hamt : 0 ≤ opp.amount)
    (hb : MrrOracleBounds mo)
    (hc : generateCustomer opp custHex companyName co = some c) :
    0 ≤ (generateMrrMovements c mo).2.currentMrr ∧
    ((generateMrrMovements c mo).2.status = "Churned" ↔
      ((generateMrrMovements c mo).2.churnDate).isSome) ∧
    ((generateMrrMovements c mo).2.status = "Churned" →
      (generateMrrMovements c mo).2.currentMrr = 0) := by
  obtain ⟨hw, hclose, hchurn, hiff, hstat, hinit, hcur, hoid⟩ :=
    generateCustomer_fields opp custHex companyName co c hc
  obtain ⟨hst2, hcd2, _, _, _⟩ := generateMrrMovements_fixed c mo
  have hinit0 : 0 ≤ c.initialMrr := by
    rw [hinit]
    exact round2_nonneg _ (div_nonneg hamt (by norm_num))
  rcases hcd : c.churnDate with _ | cd
  · -- active customer
    have hnost : ¬ c.status = "Churned" := by
      intro habs
      rw [hcd] at hiff
      simpa using hiff.mp habs
    have hr2 := mrrTickLoop_nonneg c.customerId mo DATA_END_DATE hb
      (c.startDate + 30) 0 c.initialMrr hinit0
    have hres : (generateMrrMovements c mo).2 =
        { c with currentMrr := round2 (mrrTickLoop c.customerId mo DATA_END_DATE
            (c.startDate + 30) 0 c.initialMrr).2 } := by
      unfold generateMrrMovements
      simp only [hcd, Option.getD_none]
    rw [hres]
    refine ⟨round2_nonneg _ hr2, ?_, fun habs => absurd habs hnost⟩
    simp [hcd, hnost]
  · -- churned customer
    have hst : c.status = "Churned" := by
      rw [hcd] at hiff
      simpa using hiff.mpr (by simp)
    have hres : (generateMrrMovements c mo).2 = c := by
      unfold generateMrrMovements
      simp only [hcd, Option.getD_some, if_pos hst]
    have hc0 : c.currentMrr = 0 := by
      rw [hcur, hcd]
      rfl
    rw [hres]
    exact ⟨by rw [hc0], by simp [hst, hcd], fun _ => hc0⟩

/-- C2 witness: the amended invariants at the concrete churned customer. -/
theorem c2_mrr_status_invariants_witness :
    0 ≤ (generateMrrMovements custW mrrOracleW).2.currentMrr ∧
    ((generateMrrMovements custW mrrOracleW).2.status = "Churned" ↔
      ((generateMrrMovements custW mrrOracleW).2.churnDate).isSome) ∧
    ((generateMrrMovements custW mrrOracleW).2.status = "Churned" →
      (generateMrrMovements custW mrrOracleW).2.currentMrr = 0) :=
  c2_mrr_status_invariants oppW "W" "Acme W" churnOracleW mrrOracleW custW
    (by norm_num [oppW])
    (fun k p => ⟨fun h => absurd h (by simp [mrrOracleW]),
      fun h => absurd h (by simp [mrrOracleW])⟩)
    generateCustomer_custW

/-- C2 counterexample inputs: a lead whose deal closes on day 10 at the SMB
minimum ACV of 6000. -/
def leadX2 : Lead :=
  { leadId := "LEAD_X2", createdDate := 0, channel := "Referral",
    companyName := "Acme 2", companySize := "SMB", industry := "Technology",
    estimatedAcv := 6000, assignedRepId := "REP_001" }

/-- Walk oracle advancing every stage after 2 days. -/
def oppOracleX2 : OppOracle :=
  { advance := fun _ => true, stageDaysDraw := fun _ => 2, lossDelay := 5,
    lossReasonPick := "Other", transIdHex := fun i => toString i }

/-- The opportunity the walk produces from `leadX2`. -/
def oppX2 : Opportunity :=
  { opportunityId := "OPP_X2", leadId := "LEAD_X2", createdDate := 0,
    currentStage := .closedWon, amount := 6000, closeDate := some 10,
    isWon := some true, lossReason := none, assignedRepId := "REP_001",
    companySize := "SMB", channel := "Referral", industry := "Technology" }

/-- Churn oracle that never fires: the customer stays active. -/
def churnOracleX2 : ChurnOracle :=
  { churnRoll := fun _ => false, churnDelay := fun _ => 1 }

/-- The active customer produced from `oppX2`: `initial_mrr = 6000/12 = 500`. -/
def custX2 : Customer :=
  { customerId := "CUST_X2", opportunityId := "OPP_X2", companyName := "Acme 2",
    companySize := "SMB", industry := "Technology", channel := "Referral",
    startDate := 10, status := "Active", churnDate := none,
    currentMrr := 500, initialMrr := 500, assignedRepId := "REP_001",
    latestNpsScore := none, healthScore := none, churnProbability := none }

/-- MRR oracle drawing a maximal contraction (40%, inside the triangular
support [0.10, 0.40]) at every monthly tick. -/
def mrrOracleX2 : MrrOracle :=
  { tick := fun _ => .contract (2/5), mvHex := fun i => toString i,
    newHex := "N", churnHex := "C" }

/-- A churn oracle that never fires yields no churn date, regardless of the
start date. -/
theorem churnLoop_none_of_never (o : ChurnOracle) (h : ∀ k, o.churnRoll k = false) :
    ∀ (current : ℤ) (k : ℕ), churnLoop o current k = none := by
  intro current k
  induction current, k using churnLoop.induct o with
  | case1 current k hlt hr =>
      rw [h k] at hr
      cases hr
  | case2 current k hlt hr ih =>
      rw [churnLoop]
      simp [if_pos hlt, hr, ih]
  | case3 current k hlt =>
      rw [churnLoop]
      simp [if_neg hlt]

/-- One maximal-contraction tick of the `mrrOracleX2` walk. -/
theorem tickX2_step (d : ℤ) (k : ℕ) (v : ℚ) (hd : d ≤ DATA_END_DATE) :
    (mrrTickLoop "CUST_X2" mrrOracleX2 DATA_END_DATE d k v).2 =
      (mrrTickLoop "CUST_X2" mrrOracleX2 DATA_END_DATE (d + 30) (k + 1)
        (v - v * (2/5))).2 := by
  rw [mrrTickLoop]
  simp [mrrOracleX2, if_pos hd]

/-- The `mrrOracleX2` walk stops past the horizon. -/
theorem tickX2_end (d : ℤ) (k : ℕ) (v : ℚ) (hd : DATA_END_DATE < d) :
    (mrrTickLoop "CUST_X2" mrrOracleX2 DATA_END_DATE d k v).2 = v := by
  rw [mrrTickLoop]
  simp [if_neg (not_le.mpr hd)]

/-- C2 counterexample: the customer from `oppX2` stays Active with no churn
date, yet after 24 maximal monthly contractions its stored `current_mrr`
rounds to exactly 0 (`500 * 0.6^24 ≈ 0.0024 < 0.005`), refuting the claimed
equivalence `current_mrr = 0 ↔ status = 'Churned'`. -/
theorem c2_counterexample :
    (generateOpportunity leadX2 "OPP_X2" oppOracleX2).1 = oppX2 ∧
    generateCustomer oppX2 "X2" "Acme 2" churnOracleX2 = some custX2 ∧
    mrrOracleX2.tick 0 = MrrTick.contract (2/5) ∧
    (generateMrrMovements custX2 mrrOracleX2).2.status = "Active" ∧
    (generateMrrMovements custX2 mrrOracleX2).2.churnDate = none ∧
    (generateMrrMovements custX2 mrrOracleX2).2.currentMrr = 0 := by
  have hnone : churnLoop churnOracleX2 10 0 = none :=
    churnLoop_none_of_never churnOracleX2 (fun _ => rfl) 10 0
  refine ⟨?_, ?_, rfl, ?_, ?_, ?_⟩
  · decide
  · unfold generateCustomer
    simp only [oppX2]
    norm_num [hnone, custX2, round2]
    decide
  · rfl
  · rfl
  · unfold generateMrrMovements
    simp only [custX2, Option.getD_none]
    rw [show ((10 : ℤ) + 30) = 40 from by norm_num]
    rw [tickX2_step 40 0 _ (by norm_num [DATA_END_DATE])]
    norm_num only
    rw [tickX2_step 70 1 _ (by norm_num [DATA_END_DATE])]
    norm_num only
    rw [tickX2_step 100 2 _ (by norm_num [DATA_END_DATE])]
    norm_num only
    rw [tickX2_step 130 3 _ (by norm_num [DATA_END_DATE])]
    norm_num only
    rw [tickX2_step 160 4 _ (by norm_num [DATA_END_DATE])]
    norm_num only
    rw [tickX2_step 190 5 _ (by norm_num [DATA_END_DATE])]
    norm_num only
    rw [tickX2_step 220 6 _ (by norm_num [DATA_END_DATE])]
    norm_num only
    rw [tickX2_step 250 7 _ (by norm_num [DATA_END_DATE])]
    norm_num only
    rw [tickX2_step 280 8 _ (by norm_num [DATA_END_DATE])]
    norm_num only
    rw [tickX2_step 310 9 _ (by norm_num [DATA_END_DATE])]
    norm_num only
    rw [tickX2_step 340 10 _ (by norm_num [DATA_END_DATE])]
    norm_num only
    rw [tickX2_step 370 11 _ (by norm_num [DATA_END_DATE])]
    norm_num only
    rw [tickX2_step 400 12 _ (by norm_num [DATA_END_DATE])]
    norm_num only
    rw [tickX2_step 430 13 _ (by norm_num [DATA_END_DATE])]
    norm_num only
    rw [tickX2_step 460 14 _ (by norm_num [DATA_END_DATE])]
    norm_num only
    rw [tickX2_step 490 15 _ (by norm_num [DATA_END_DATE])]
    norm_num only
    rw [tickX2_step 520 16 _ (by norm_num [DATA_END_DATE])]
    norm_num only
    rw [tickX2_step 550 17 _ (by norm_num [DATA_END_DATE])]
    norm_num only
    rw [tickX2_step 580 18 _ (by norm_num [DATA_END_DATE])]
    norm_num only
    rw [tickX2_step 610 19 _ (by norm_num [DATA_END_DATE])]
    norm_num only
    rw [tickX2_step 640 20 _ (by norm_num [DATA_END_DATE])]
    norm_num only
    rw [tickX2_step 670 21 _ (by norm_num [DATA_END_DATE])]
    norm_num only
    rw [tickX2_step 700 22 _ (by norm_num [DATA_END_DATE])]
    norm_num only
    rw [tickX2_step 730 23 _ (by norm_num [DATA_END_DATE])]
    norm_num only
    rw [tickX2_end 760 24 _ (by norm_num [DATA_END_DATE])]
    norm_num [round2, round_eq]

/-! ### Claim C3: customers of won opportunities -/

/-- Positional enumeration keeps the underlying element. -/
theorem mem_of_mem_enumFrom {α : Type} :
    ∀ {l : List α} {n : ℕ} {p : ℕ × α}, p ∈ l.enumFrom n → p.2 ∈ l
  | [], _, _, h => absurd h (List.not_mem_nil _)
  | _ :: _, _, _, h => by
      rcases List.mem_cons.mp h with rfl | h'
      · exact List.mem_cons_self _ _
      · exact List.mem_cons_of_mem _ (mem_of_mem_enumFrom h')

/-- No customer is counted for an opportunity id absent from the input
list. -/
theorem gc_countP_zero (g : ℕ → Opportunity → Option Customer)
    (hg : ∀ i o c, g i o = some c → c.opportunityId = o.opportunityId)
    (X : String) :
    ∀ (opps : List Opportunity) (n : ℕ), (∀ b ∈ opps, b.opportunityId ≠ X) →
    (((opps.enumFrom n).filterMap (fun p => g p.1 p.2)).countP
      (fun c => c.opportunityId == X)) = 0
  | [], _, _ => rfl
  | a :: as, n, h => by
      simp only [List.enumFrom_cons, List.filterMap_cons]
      rcases hga : g n a with _ | c
      · exact gc_countP_zero g hg X as (n + 1)
          (fun b hb => h b (List.mem_cons_of_mem _ hb))
      · have hne : (c.opportunityId == X) = false := by
          rw [hg n a c hga]
          exact beq_false_of_ne (h a (List.mem_cons_self _ _))
        simp [List.countP_cons, hne,
          gc_countP_zero g hg X as (n + 1)
            (fun b hb => h b (List.mem_cons_of_mem _ hb))]

/-- With distinct opportunity ids, a won opportunity in the list is counted
exactly once among the generated customers. -/
theorem gc_countP_one (g : ℕ → Opportunity → Option Customer)
    (hg : ∀ i o c, g i o = some c → c.opportunityId = o.opportunityId)
    (opp : Opportunity) (hsome : ∀ i, (g i opp).isSome) :
    ∀ (opps : List Opportunity) (n : ℕ),
      (opps.map Opportunity.opportunityId).Nodup → opp ∈ opps →
    (((opps.enumFrom n).filterMap (fun p => g p.1 p.2)).countP
      (fun c => c.opportunityId == opp.opportunityId)) = 1
  | [], _, _, hmem => absurd hmem (List.not_mem_nil _)
  | a :: as, n, hnd, hmem => by
      rw [List.map_cons, List.nodup_cons] at hnd
      simp only [List.enumFrom_cons, List.filterMap_cons]
      rcases List.mem_cons.mp hmem with rfl | hmem'
      · rcases hga : g n opp with _ | c
        · have := hsome n
          rw [hga] at this
          cases this
        · have hyes : (c.opportunityId == opp.opportunityId) = true := by
            rw [hg n opp c hga]
            exact beq_self_eq_true _
          have hzero := gc_countP_zero g hg opp.opportunityId as (n + 1)
            (fun b hb habs => hnd.1 (habs ▸ List.mem_map_of_mem _ hb))
          simp [List.countP_cons, hyes, hzero]
      · have hne : a.opportunityId ≠ opp.opportunityId :=
          fun habs => hnd.1 (habs ▸ List.mem_map_of_mem _ hmem')
        rcases hga : g n a with _ | c
        · exact gc_countP_one g hg opp hsome as (n + 1) hnd.2 hmem'
        · have hcne : (c.opportunityId == opp.opportunityId) = false := by
            rw [hg n a c hga]
            exact beq_false_of_ne hne
          simp [List.countP_cons, hcne,
            gc_countP_one g hg opp hsome as (n + 1) hnd.2 hmem']

/-- Every generated customer that carries the won opportunity's id has the
MRR derived from that opportunity's amount. -/
theorem gc_mem_initialMrr (g : ℕ → Opportunity → Option Customer)
    (hgid : ∀ i o c, g i o = some c → c.opportunityId = o.opportunityId)
    (hginit : ∀ i o c, g i o = some c → c.initialMrr = round2 (o.amount / 12))
    (opp : Opportunity) (opps : List Opportunity) (n : ℕ)
    (hnd : (opps.map Opportunity.opportunityId).Nodup) (hmem : opp ∈ opps) :
    ∀ c ∈ (opps.enumFrom n).filterMap (fun p => g p.1 p.2),
      c.opportunityId = opp.opportunityId →
        c.initialMrr = round2 (opp.amount / 12) := by
  intro c hc hid
  obtain ⟨p, hp, hgp⟩ := List.mem_filterMap.mp hc
  have hb : p.2 ∈ opps := mem_of_mem_enumFrom hp
  have hbe : p.2 = opp :=
    List.inj_on_of_nodup_map hnd hb hmem (by rw [← hgid p.1 p.2 c hgp, hid])
  rw [hginit p.1 p.2 c hgp, hbe]

/-- C3 (amended): for every won opportunity (with distinct opportunity ids,
as generated), exactly one customer carries its `opportunity_id`, and that
customer's `initial_mrr` is `round(amount / 12, 2)` — the cent-rounded
monthly value, not the exact quotient `amount / 12` of the original claim
(see the counterexample). -/
theorem c3_unique_customer_per_won_opp (opps : List Opportunity)
    (leads : List Lead) (oracles : ℕ → ChurnOracle) (custHex : ℕ → String)
    (fakeCompany : ℕ → String) (opp : Opportunity)
    (hnodup : (opps.map Opportunity.opportunityId).Nodup)
    (hmem : opp ∈ opps)
    (hwon : opp.isWon = some true)
    (hcd : opp.closeDate.isSome) :
    ((generateCustomers opps leads oracles custHex fakeCompany).countP
      (fun c => c.opportunityId == opp.opportunityId)) = 1 ∧
    ∀ c ∈ generateCustomers opps leads oracles custHex fakeCompany,
      c.opportunityId = opp.opportunityId →
        c.initialMrr = round2 (opp.amount / 12) := by
  have hgid : ∀ (i : ℕ) (o : Opportunity) (c : Customer),
      generateCustomer o (custHex i)
        ((((leads.find? (fun l => l.leadId == o.leadId)).map Lead.companyName)).getD
          (fakeCompany i)) (oracles i) = some c →
        c.opportunityId = o.opportunityId :=
    fun i o c h =>
      (generateCustomer_fields o _ _ _ c h).2.2.2.2.2.2.2
  have hginit : ∀ (i : ℕ) (o : Opportunity) (c : Customer),
      generateCustomer o (custHex i)
        ((((leads.find? (fun l => l.leadId == o.leadId)).map Lead.companyName)).getD
          (fakeCompany i)) (oracles i) = some c →
        c.initialMrr = round2 (o.amount / 12) :=
    fun i o c h =>
      (generateCustomer_fields o _ _ _ c h).2.2.2.2.2.1
  have hsome : ∀ i : ℕ,
      (generateCustomer opp (custHex i)
        ((((leads.find? (fun l => l.leadId == opp.leadId)).map Lead.companyName)).getD
          (fakeCompany i)) (oracles i)).isSome :=
    fun i => generateCustomer_isSome opp _ _ _ hwon hcd
  exact ⟨gc_countP_one _ hgid opp hsome opps 0 hnodup hmem,
    gc_mem_initialMrr _ hgid hginit opp opps 0 hnodup hmem⟩

/-- C3 witness: the amended statement on a one-opportunity list. -/
theorem c3_unique_customer_per_won_opp_witness :
    ((generateCustomers [oppW] [] (fun _ => churnOracleW) (fun _ => "W")
      (fun _ => "F")).countP
      (fun c => c.opportunityId == oppW.opportunityId)) = 1 ∧
    ∀ c ∈ generateCustomers [oppW] [] (fun _ => churnOracleW) (fun _ => "W")
      (fun _ => "F"),
      c.opportunityId = oppW.opportunityId →
        c.initialMrr = round2 (oppW.amount / 12) :=
  c3_unique_customer_per_won_opp [oppW] [] (fun _ => churnOracleW)
    (fun _ => "W") (fun _ => "F") oppW (by simp) (by simp) rfl rfl

/-- C3 counterexample opportunity: a won deal for 6000.01, a reachable
rounded triangular ACV draw. -/
def oppX3 : Opportunity :=
  { opportunityId := "OPP_X3", leadId := "LEAD_X3", createdDate := 0,
    currentStage := .closedWon, amount := 600001/100, closeDate := some 729,
    isWon := some true, lossReason := none, assignedRepId := "REP_001",
    companySize := "SMB", channel := "Referral", industry := "Technology" }

/-- The customer generated from `oppX3`: `initial_mrr` is the cent-rounded
`round(6000.01 / 12, 2) = 500.00`. -/
def custX3 : Customer :=
  { customerId := "CUST_X3", opportunityId := "OPP_X3", companyName := "Acme 3",
    companySize := "SMB", industry := "Technology", channel := "Referral",
    startDate := 729, status := "Churned", churnDate := some 730,
    currentMrr := 0, initialMrr := 500, assignedRepId := "REP_001",
    latestNpsScore := none, healthScore := none, churnProbability := none }

/-- C3 counterexample: the generated customer's `initial_mrr` (500.00) is not
`amount / 12 = 500.000833…` — the claim's exact-quotient equation fails
because the source stores `round(amount / 12, 2)`. -/
theorem c3_counterexample :
    generateCustomer oppX3 "X3" "Acme 3" churnOracleW = some custX3 ∧
    custX3.opportunityId = oppX3.opportunityId ∧
    custX3.initialMrr ≠ oppX3.amount / 12 := by
  refine ⟨?_, rfl, by norm_num [custX3, oppX3]⟩
  unfold generateCustomer
  simp only [oppX3]
  rw [churnLoop]
  norm_num [churnOracleW, custX3, DATA_END_DATE, round2, round_eq]
  decide

/-! ### Claims C5 and C8: the stage walk -/

/-- C5 inputs: a lead whose walk reaches Negotiation quickly, then draws a
successful Negotiation→Closed Won conversion whose sampled duration lands
past the horizon. -/
def leadC5 : Lead :=
  { leadId := "LEAD_C5", createdDate := 0, channel := "Referral",
    companyName := "Acme 5", companySize := "SMB", industry := "Technology",
    estimatedAcv := 12000, assignedRepId := "REP_001" }

/-- Walk oracle for C5: every Bernoulli succeeds; the first four stage
durations are 1 day, the final one 1000 days. -/
def oppOracleC5 : OppOracle :=
  { advance := fun _ => true
    stageDaysDraw := fun i => if i < 4 then 1 else 1000
    lossDelay := 5
    lossReasonPick := "Other"
    transIdHex := fun i => toString i }

/-- C5: the source assigns `current_stage = stage` *before* the horizon
check, so this opportunity ends with `current_stage = 'Closed Won'` while
`is_won` and `close_date` stay unset; the customer stage therefore creates no
customer for it, hence no MRRMovement of type 'New' exists for a
Closed-Won-staged opportunity. -/
theorem c5_closed_won_without_customer :
    (generateOpportunity leadC5 "OPP_C5" oppOracleC5).1.currentStage =
      Stage.closedWon ∧
    (generateOpportunity leadC5 "OPP_C5" oppOracleC5).1.isWon = none ∧
    (generateOpportunity leadC5 "OPP_C5" oppOracleC5).1.closeDate = none ∧
    generateCustomers [(generateOpportunity leadC5 "OPP_C5" oppOracleC5).1]
      [leadC5] (fun _ => churnOracleW) (fun _ => "C5") (fun _ => "F") = [] := by
  refine ⟨by decide, by decide, by decide, by decide⟩

/-- The per-transition property of claim C8, as the code guarantees it. -/
def transitionOk (t : StageTransition) : Prop :=
  t.fromStage.idx < t.toStage.idx ∧
  (t.toStage ≠ Stage.closedLost → 1 ≤ t.daysInPreviousStage) ∧
  0 ≤ t.daysInPreviousStage

/-- Invariant propagation through the stage walk: with strictly increasing
remaining targets below Closed Lost, a current date inside the horizon and a
loss delay from `randint(1, 14)`, every emitted transition moves strictly
forward, advance transitions take at least one day, and Closed Lost
transitions take a nonnegative number of days. -/
theorem oppWalk_transitionOk (oppId : String) (o : OppOracle)
    (hdelay : 1 ≤ o.lossDelay) :
    ∀ (ts : List (ℕ × Stage)) (s : WalkState),
      List.Chain (fun a b => a.idx < b.idx) s.currentStage (ts.map Prod.snd) →
      (∀ p ∈ ts, p.2.idx ≤ 5) →
      s.currentStage.idx ≤ 5 →
      s.currentDate ≤ DATA_END_DATE →
      (∀ t ∈ s.transitions, transitionOk t) →
      ∀ t ∈ (oppWalk oppId o ts s).transitions, transitionOk t
  | [], s, _, _, _, _, hts => by
      intro t ht
      exact hts t ht
  | (i, stage) :: rest, s, hchain, htargets, hidx, hdate, hts => by
      rw [List.map_cons] at hchain
      rw [oppWalk]
      rcases hadv : o.advance i with _ | _
      · -- conversion failed
        rw [if_neg Bool.false_ne_true]
        by_cases hlead : s.currentStage = Stage.lead
        · -- a Lead that never advanced: no loss event
          rw [if_pos hlead]
          intro t ht
          exact hts t ht
        · -- lost from a post-Lead stage
          rw [if_neg hlead]
          intro t ht
          rcases List.mem_append.mp ht with ht' | ht'
          · exact hts t ht'
          · simp only [List.mem_singleton] at ht'
            subst ht'
            refine ⟨?_, fun habs => absurd rfl habs, ?_⟩
            · have h6 : Stage.closedLost.idx = 6 := rfl
              show s.currentStage.idx < Stage.closedLost.idx
              omega
            · show (0 : ℤ) ≤ min (s.currentDate + o.lossDelay) DATA_END_DATE - s.currentDate
              omega
      · -- conversion succeeded
        rw [if_pos rfl]
        rcases hhor : decide (DATA_END_DATE < s.currentDate + max 1 (o.stageDaysDraw i : ℤ))
          with _ | _
        · -- inside the horizon: advance and recurse
          rw [decide_eq_false_iff_not] at hhor
          rw [if_neg hhor]
          refine oppWalk_transitionOk oppId o hdelay rest _ ?_ ?_ ?_ ?_ ?_
          · exact (List.chain_cons.mp hchain).2
          · exact fun p hp => htargets p (List.mem_cons_of_mem _ hp)
          · exact htargets (i, stage) (List.mem_cons_self _ _)
          · simpa using le_of_not_lt hhor
          · intro t ht
            rcases List.mem_append.mp ht with ht' | ht'
            · exact hts t ht'
            · simp only [List.mem_singleton] at ht'
              subst ht'
              exact ⟨(List.chain_cons.mp hchain).1, fun _ => le_max_left _ _,
                le_trans (by norm_num) (le_max_left _ _)⟩
        · -- horizon exceeded: stop, no transition emitted
          rw [decide_eq_true_eq] at hhor
          rw [if_pos hhor]
          intro t ht
          exact hts t ht

/-- C8 (amended): every generated StageTransition moves strictly forward in
the seven-stage order; advance transitions have `days_in_previous_stage ≥ 1`,
while Closed Lost transitions only guarantee `days_in_previous_stage ≥ 0` —
a loss whose sampled close date is capped at `DATA_END_DATE` can record 0
days (see the counterexample). -/
theorem c8_stage_transition_order (lead : Lead) (oppId : String) (o : OppOracle)
    (hdelay : 1 ≤ o.lossDelay)
    (hcreated : lead.createdDate ≤ DATA_END_DATE) :
    ∀ t ∈ (generateOpportunity lead oppId o).2,
      t.fromStage.idx < t.toStage.idx ∧
      (t.toStage ≠ Stage.closedLost → 1 ≤ t.daysInPreviousStage) ∧
      0 ≤ t.daysInPreviousStage := by
  intro t ht
  exact oppWalk_transitionOk oppId o hdelay advanceTargets (initialWalkState lead)
    (by norm_num [advanceTargets, initialWalkState, List.chain_cons, Stage.idx])
    (by decide)
    (by norm_num [initialWalkState, Stage.idx])
    hcreated
    (fun t ht => absurd ht (List.not_mem_nil t))
    t ht

/-- C8 witness lead: created on day 0. -/
def leadW8 : Lead :=
  { leadId := "LEAD_W8", createdDate := 0, channel := "Referral",
    companyName := "Acme 8", companySize := "SMB", industry := "Technology",
    estimatedAcv := 12000, assignedRepId := "REP_001" }

/-- C8 witness oracle: one advance, then a loss. -/
def oppOracleW8 : OppOracle :=
  { advance := fun i => i == 0
    stageDaysDraw := fun _ => 3
    lossDelay := 5
    lossReasonPick := "No Response"
    transIdHex := fun i => toString i }

/-- C8 witness: the amended property instantiated at the concrete Closed
Lost transition of `leadW8`'s walk (Lead→MQL on day 3, lost on day 8). -/
theorem c8_stage_transition_order_witness :
    Stage.mql.idx < Stage.closedLost.idx ∧
    (Stage.closedLost ≠ Stage.closedLost → (1 : ℤ) ≤ 5) ∧
    (0 : ℤ) ≤ 5 :=
  c8_stage_transition_order leadW8 "OPP_W8" oppOracleW8 (by norm_num [oppOracleW8])
    (by norm_num [leadW8, DATA_END_DATE])
    { transitionId := "TRANS_1", opportunityId := "OPP_W8",
      fromStage := .mql, toStage := .closedLost, transitionDate := 8,
      daysInPreviousStage := 5 }
    (by decide)

/-- C8 counterexample lead: created on day 723, seven days before the
horizon. -/
def leadX8 : Lead :=
  { leadId := "LEAD_X8", createdDate := 723, channel := "Referral",
    companyName := "Acme X8", companySize := "SMB", industry := "Technology",
    estimatedAcv := 12000, assignedRepId := "REP_001" }

/-- C8 counterexample oracle: the first transition succeeds after 7 days
(landing exactly on the horizon), the next conversion fails. -/
def oppOracleX8 : OppOracle :=
  { advance := fun i => i == 0
    stageDaysDraw := fun _ => 7
    lossDelay := 5
    lossReasonPick := "No Response"
    transIdHex := fun i => toString i }

/-- C8 counterexample: the Closed Lost transition's close date
`730 + 5` is capped at `DATA_END_DATE = 730`, so `days_in_previous_stage = 0`,
refuting the claim that every StageTransition has
`days_in_previous_stage >= 1`. -/
theorem c8_counterexample :
    ((generateOpportunity leadX8 "OPP_X8" oppOracleX8).2.map
      (fun t => (t.fromStage, t.toStage, t.transitionDate,
        t.daysInPreviousStage))) =
      [(Stage.lead, Stage.mql, 730, 7),
       (Stage.mql, Stage.closedLost, 730, 0)] ∧
    ¬ (∀ t ∈ (generateOpportunity leadX8 "OPP_X8" oppOracleX8).2,
        1 ≤ t.daysInPreviousStage) := by
  refine ⟨by decide, by decide⟩

/-! ### Claim C7: date-window lemmas -/

/-- Membership in the data window `[DATA_START_DATE, DATA_END_DATE]`. -/
def inWindow (d : ℤ) : Prop := DATA_START_DATE ≤ d ∧ d ≤ DATA_END_DATE

/-- Sales-rep start dates land 30–365 days before the window. -/
theorem generateSalesReps_dates (o : RepOracle)
    (hoff : ∀ i, 30 ≤ o.startOffset i ∧ o.startOffset i ≤ 365) :
    ∀ r ∈ generateSalesReps o,
      DATA_START_DATE - 365 ≤ r.startDate ∧ r.startDate ≤ DATA_START_DATE - 30 := by
  intro r hr
  obtain ⟨i, _, rfl⟩ := List.mem_map.mp hr
  have := hoff i
  unfold mkSalesRep
  simp only
  omega

/-- A created lead carries exactly the date of its `_create_lead` call. -/
theorem createLead_createdDate (i : ℕ) (d : ℤ) (reps : List SalesRep)
    (o : LeadOracle) (l : Lead) (h : createLead i d reps o = some l) :
    l.createdDate = d := by
  unfold createLead at h
  obtain ⟨rep, _, rfl⟩ := Option.map_eq_some'.mp h
  rfl

/-- Dates contributed by one month's lead distribution stay between the
month start and the horizon. -/
theorem monthLeadDates_bounds (monthIdx : ℕ) (monthStart : ℤ) (month : ℕ)
    (o : LeadOracle) :
    ∀ d ∈ monthLeadDates monthIdx monthStart month o,
      monthStart ≤ d ∧ d ≤ DATA_END_DATE := by
  intro d hd
  unfold monthLeadDates at hd
  simp only [List.mem_flatMap] at hd
  obtain ⟨day, hday, hrep⟩ := hd
  have hcond := List.mem_takeWhile_imp hday
  rw [List.eq_of_mem_replicate hrep]
  refine ⟨by omega, ?_⟩
  simpa using of_decide_eq_true hcond

/-- All lead dates produced by the month loop lie in the window. -/
theorem leadDatesLoop_dates (o : LeadOracle) :
    ∀ (monthIdx y m : ℕ) (monthStart : ℤ), 0 ≤ monthStart →
      ∀ d ∈ leadDatesLoop o monthIdx y m monthStart,
        0 ≤ d ∧ d ≤ DATA_END_DATE := by
  intro monthIdx y m monthStart
  induction monthIdx, y, m, monthStart using leadDatesLoop.induct o with
  | case1 monthIdx y m monthStart h ih =>
      intro h0 d hd
      rw [leadDatesLoop, if_pos h] at hd
      rcases List.mem_append.mp hd with hd' | hd'
      · have := monthLeadDates_bounds monthIdx monthStart m o d hd'
        exact ⟨by omega, this.2⟩
      · have hpos := realDaysInMonth_pos y m
        exact ih (by omega) d hd'
  | case2 monthIdx y m monthStart h =>
      intro h0 d hd
      rw [leadDatesLoop, if_neg h] at hd
      cases hd

/-- Every generated lead is dated inside the window. -/
theorem generateLeads_dates (reps : List SalesRep) (o : LeadOracle) :
    ∀ l ∈ generateLeads reps o, inWindow l.createdDate := by
  intro l hl
  obtain ⟨p, hp, hcl⟩ := List.mem_filterMap.mp hl
  have hd : p.2 ∈ leadDatesLoop o 0 2023 1 0 := mem_of_mem_enumFrom hp
  have hb := leadDatesLoop_dates o 0 2023 1 0 le_rfl p.2 hd
  rw [inWindow, createLead_createdDate p.1 p.2 reps o l hcl]
  exact hb

/-- Date propagation through the stage walk: transitions and close dates stay
inside the window given a loss delay `≥ 1` and an in-window entry date. -/
theorem oppWalk_dates (oppId : String) (o : OppOracle) (hdelay : 1 ≤ o.lossDelay) :
    ∀ (ts : List (ℕ × Stage)) (s : WalkState),
      0 ≤ s.currentDate → s.currentDate ≤ DATA_END_DATE →
      (∀ t ∈ s.transitions, inWindow t.transitionDate) →
      (∀ cd ∈ s.closeDate, inWindow cd) →
      (∀ t ∈ (oppWalk oppId o ts s).transitions, inWindow t.transitionDate) ∧
      (∀ cd ∈ (oppWalk oppId o ts s).closeDate, inWindow cd)
  | [], s, _, _, hts, hcd => by
      rw [oppWalk]
      exact ⟨hts, hcd⟩
  | (i, stage) :: rest, s, h0, hend, hts, hcd => by
      rw [oppWalk]
      rcases hadv : o.advance i with _ | _
      · rw [if_neg Bool.false_ne_true]
        by_cases hlead : s.currentStage = Stage.lead
        · rw [if_pos hlead]
          exact ⟨hts, hcd⟩
        · rw [if_neg hlead]
          constructor
          · intro t ht
            rcases List.mem_append.mp ht with ht' | ht'
            · exact hts t ht'
            · simp only [List.mem_singleton] at ht'
              subst ht'
              show inWindow (min (s.currentDate + o.lossDelay) DATA_END_DATE)
              unfold inWindow DATA_START_DATE DATA_END_DATE at *
              omega
          · intro cd hcd'
            simp only [Option.mem_def, Option.some.injEq] at hcd'
            subst hcd'
            show inWindow (min (s.currentDate + o.lossDelay) DATA_END_DATE)
            unfold inWindow DATA_START_DATE DATA_END_DATE at *
            omega
      · rw [if_pos rfl]
        rcases hhor : decide (DATA_END_DATE <
          s.currentDate + max 1 (o.stageDaysDraw i : ℤ)) with _ | _
        · rw [decide_eq_false_iff_not] at hhor
          rw [if_neg hhor]
          refine oppWalk_dates oppId o hdelay rest _ ?_ ?_ ?_ ?_
          · have : (0 : ℤ) ≤ max 1 (o.stageDaysDraw i : ℤ) :=
              le_trans (by norm_num) (le_max_left _ _)
            simp only
            omega
          · simpa using le_of_not_lt hhor
          · intro t ht
            rcases List.mem_append.mp ht with ht' | ht'
            · exact hts t ht'
            · simp only [List.mem_singleton] at ht'
              subst ht'
              have h1 : (0 : ℤ) ≤ max 1 (o.stageDaysDraw i : ℤ) :=
                le_trans (by norm_num) (le_max_left _ _)
              have h2 := le_of_not_lt hhor
              show inWindow (s.currentDate + max 1 (o.stageDaysDraw i : ℤ))
              unfold inWindow DATA_START_DATE
              omega
          · intro cd hcd'
            replace hcd' : cd ∈ (if stage = Stage.closedWon
                then some (s.currentDate + max 1 (o.stageDaysDraw i : ℤ))
                else s.closeDate) := hcd'
            by_cases hcw : stage = Stage.closedWon
            · rw [if_pos hcw] at hcd'
              simp only [Option.mem_def, Option.some.injEq] at hcd'
              subst hcd'
              have h1 : (0 : ℤ) ≤ max 1 (o.stageDaysDraw i : ℤ) :=
                le_trans (by norm_num) (le_max_left _ _)
              have h2 := le_of_not_lt hhor
              show inWindow (s.currentDate + max 1 (o.stageDaysDraw i : ℤ))
              unfold inWindow DATA_START_DATE
              omega
            · rw [if_neg hcw] at hcd'
              exact hcd cd hcd'
        · rw [decide_eq_true_eq] at hhor
          rw [if_pos hhor]
          exact ⟨hts, hcd⟩

/-- Every opportunity row and every stage transition is dated inside the
window. -/
theorem generateOpportunity_dates (lead : Lead) (oppId : String) (o : OppOracle)
    (hdelay : 1 ≤ o.lossDelay) (hl : inWindow lead.createdDate) :
    inWindow (generateOpportunity lead oppId o).1.createdDate ∧
    (∀ cd ∈ (generateOpportunity lead oppId o).1.closeDate, inWindow cd) ∧
    (∀ t ∈ (generateOpportunity lead oppId o).2, inWindow t.transitionDate) := by
  have hw := oppWalk_dates oppId o hdelay advanceTargets (initialWalkState lead)
    hl.1 hl.2 (fun t ht => absurd ht (List.not_mem_nil t))
    (fun cd hcd => absurd hcd (by simp [initialWalkState]))
  exact ⟨hl, hw.2, hw.1⟩

/-- Customer dates: the start date inherits the won opportunity's close date,
the churn date stays between start and horizon. -/
theorem generateCustomer_dates (opp : Opportunity) (custHex companyName : String)
    (co : ChurnOracle) (c : Customer)
    (hdelay : ∀ k, 1 ≤ co.churnDelay k)
    (hc : generateCustomer opp custHex companyName co = some c)
    (hcd : ∀ sd ∈ opp.closeDate, inWindow sd) :
    inWindow c.startDate ∧ ∀ cd ∈ c.churnDate, inWindow cd := by
  obtain ⟨hw, hclose, hchurn, _, _, _, _, _⟩ :=
    generateCustomer_fields opp custHex companyName co c hc
  have hstart : inWindow c.startDate := hcd c.startDate (by rw [hclose]; rfl)
  refine ⟨hstart, ?_⟩
  intro cd hcd'
  have hbound := churnLoop_some_bounds co hdelay c.startDate 0 cd
    (by rw [← hchurn]; exact hcd')
  unfold inWindow at *
  omega

/-- The event date of one usage row is the loop's day. -/
theorem mkUsageEvent_eventDate (custId eid : String) (base : BaseUsage)
    (mult : ℚ) (day : ℤ) (nz : UsageNoise) :
    (mkUsageEvent custId eid base mult day nz).eventDate = day := by
  unfold mkUsageEvent
  split_ifs <;> rfl

/-- Usage-loop dates stay between the loop entry day and the end day. -/
theorem usageLoop_dates (custId : String) (o : UsageOracle) (base : BaseUsage)
    (isChurning : Bool) (daysUntilChurn startDay endDay : ℤ) :
    ∀ (current : ℤ) (k : ℕ) (mult : ℚ),
      ∀ e ∈ usageLoop custId o base isChurning daysUntilChurn startDay endDay
        current k mult,
        current ≤ e.eventDate ∧ e.eventDate ≤ endDay := by
  intro current k mult
  induction current, k, mult using usageLoop.induct custId o base isChurning
    daysUntilChurn startDay endDay with
  | case1 current k mult h mult' ih =>
      intro e he
      rw [usageLoop, if_pos h] at he
      rcases List.mem_cons.mp he with rfl | he'
      · rw [mkUsageEvent_eventDate]
        exact ⟨le_refl _, h⟩
      · have := ih e he'
        exact ⟨by omega, this.2⟩
  | case2 current k mult h =>
      intro e he
      rw [usageLoop, if_neg h] at he
      cases he

/-- Every usage event of a customer with in-window dates is dated inside the
window. -/
theorem generateUsageEvents_dates (c : Customer) (o : UsageOracle)
    (evs : List UsageEvent) (hg : generateUsageEvents c o = some evs)
    (hs : inWindow c.startDate) (hcd : ∀ cd ∈ c.churnDate, inWindow cd) :
    ∀ e ∈ evs, inWindow e.eventDate := by
  intro e he
  have hend : c.churnDate.getD DATA_END_DATE ≤ DATA_END_DATE := by
    rcases h : c.churnDate with _ | cd
    · simp
    · simpa using (hcd cd (by rw [h]; rfl)).2
  unfold generateUsageEvents at hg
  split_ifs at hg with hst
  · rcases hch : c.churnDate with _ | cd
    · rw [hch] at hg; cases hg
    · rw [hch] at hg
      simp only [Option.some.injEq] at hg
      subst hg
      have := usageLoop_dates c.customerId o (baseUsageBySegment c.companySize)
        true (cd - c.startDate) c.startDate (c.churnDate.getD DATA_END_DATE)
        c.startDate 0 1 e (by rw [hch]; exact he)
      rw [hch] at this
      unfold inWindow at *
      constructor
      · omega
      · simpa using le_trans this.2 (by rw [← hch]; exact hend)
  · simp only [Option.some.injEq] at hg
    subst hg
    have := usageLoop_dates c.customerId o (baseUsageBySegment c.companySize)
      false 0 c.startDate (c.churnDate.getD DATA_END_DATE) c.startDate 0 1 e he
    unfold inWindow at *
    exact ⟨by omega, le_trans this.2 hend⟩

/-- Marketing rows are dated inside the window. -/
theorem mktLoop_dates (o : MktOracle) :
    ∀ (monthIdx y m : ℕ) (monthStart : ℤ), 0 ≤ monthStart →
      ∀ r ∈ mktLoop o monthIdx y m monthStart,
        inWindow r.periodStart ∧ inWindow r.periodEnd := by
  intro monthIdx y m monthStart
  induction monthIdx, y, m, monthStart using mktLoop.induct o with
  | case1 monthIdx y m monthStart h ih =>
      intro h0 r hr
      rw [mktLoop, if_pos h] at hr
      rcases List.mem_append.mp hr with hr' | hr'
      · obtain ⟨p, _, rfl⟩ := List.mem_map.mp hr'
        have hlen := realDaysInMonth_pos y m
        unfold inWindow DATA_START_DATE DATA_END_DATE at *
        constructor
        · constructor <;> simp only <;> omega
        · constructor <;> simp only <;> omega
      · have hpos := realDaysInMonth_pos y m
        exact ih (by omega) r hr'
  | case2 monthIdx y m monthStart h =>
      intro h0 r hr
      rw [mktLoop, if_neg h] at hr
      cases hr

/-- Every marketing-spend row is dated inside the window. -/
theorem generateMarketingSpend_dates (o : MktOracle) :
    ∀ r ∈ generateMarketingSpend o, inWindow r.periodStart ∧ inWindow r.periodEnd :=
  mktLoop_dates o 0 2023 1 0 le_rfl

/-- Every MRR-movement row of a customer with in-window dates is dated inside
the window. -/
theorem generateMrrMovements_dates (c : Customer) (o : MrrOracle)
    (hs : inWindow c.startDate) (hcd : ∀ cd ∈ c.churnDate, inWindow cd) :
    ∀ mv ∈ (generateMrrMovements c o).1, inWindow mv.movementDate := by
  have hend : c.churnDate.getD DATA_END_DATE ≤ DATA_END_DATE := by
    rcases h : c.churnDate with _ | cd
    · simp
    · simpa using (hcd cd (by rw [h]; rfl)).2
  have hticks := mrrTickLoop_dates c.customerId o (c.churnDate.getD DATA_END_DATE)
    (c.startDate + 30) 0 c.initialMrr
  have htick : ∀ mv ∈ (mrrTickLoop c.customerId o (c.churnDate.getD DATA_END_DATE)
      (c.startDate + 30) 0 c.initialMrr).1, inWindow mv.movementDate := by
    intro mv hmv
    have := hticks.1 mv hmv
    unfold inWindow at *
    constructor
    · omega
    · exact le_trans this.2 hend
  intro mv hmv
  unfold generateMrrMovements at hmv
  rcases hch : c.churnDate with _ | cd
  · rw [hch] at hmv
    simp only at hmv
    rcases List.mem_cons.mp hmv with rfl | hmv'
    · exact hs
    · exact htick mv (by rw [hch]; exact hmv')
  · rw [hch] at hmv
    simp only at hmv
    split_ifs at hmv with hst
    · rcases List.mem_cons.mp hmv with rfl | hmv'
      · exact hs
      · rcases List.mem_append.mp hmv' with hmv'' | hmv''
        · exact htick mv (by rw [hch]; exact hmv'')
        · simp only [List.mem_singleton] at hmv''
          subst hmv''
          exact hcd cd (by rw [hch]; rfl)
    · rcases List.mem_cons.mp hmv with rfl | hmv'
      · exact hs
      · exact htick mv (by rw [hch]; exact hmv')

/-- The survey date of one NPS row is the loop's date. -/
theorem mkNpsSurvey_surveyDate (c : Customer) (o : NpsOracle) (d : ℤ) (k : ℕ) :
    (mkNpsSurvey c o d k).surveyDate = d := rfl

/-- NPS-loop dates stay between the loop entry date and the end day. -/
theorem npsLoop_dates (c : Customer) (o : NpsOracle) (endDay : ℤ) :
    ∀ (surveyDate : ℤ) (k : ℕ),
      ∀ sv ∈ npsLoop c o endDay surveyDate k,
        surveyDate ≤ sv.surveyDate ∧ sv.surveyDate ≤ endDay := by
  intro surveyDate k
  induction surveyDate, k using npsLoop.induct c o endDay with
  | case1 surveyDate k h ih =>
      intro sv hsv
      rw [npsLoop, if_pos h] at hsv
      rcases List.mem_cons.mp hsv with rfl | hsv'
      · rw [mkNpsSurvey_surveyDate]
        exact ⟨le_refl _, h⟩
      · have := ih sv hsv'
        unfold survey_frequency_days at this
        exact ⟨by omega, this.2⟩
  | case2 surveyDate k h =>
      intro sv hsv
      rw [npsLoop, if_neg h] at hsv
      cases hsv

/-- Every NPS survey of a customer with in-window dates is dated inside the
window. -/
theorem generateNpsSurveys_dates (c : Customer) (o : NpsOracle)
    (hs : inWindow c.startDate) (hcd : ∀ cd ∈ c.churnDate, inWindow cd) :
    ∀ sv ∈ generateNpsSurveys c o, inWindow sv.surveyDate := by
  intro sv hsv
  have hend : c.churnDate.getD DATA_END_DATE ≤ DATA_END_DATE := by
    rcases h : c.churnDate with _ | cd
    · simp
    · simpa using (hcd cd (by rw [h]; rfl)).2
  have := npsLoop_dates c o (c.churnDate.getD DATA_END_DATE)
    (c.startDate + survey_frequency_days) 1 sv hsv
  unfold inWindow survey_frequency_days at *
  exact ⟨by omega, le_trans this.2 hend⟩

/-- Expansion rows: the identified date is the check date; resolved close
dates stay in the window. -/
theorem mkExpansion_dates (custId : String) (mrr : ℚ) (o : ExpOracle)
    (checkDate : ℤ) (k : ℕ) (hcheck : 0 ≤ checkDate)
    (hdel : 0 ≤ o.closeDelay k) :
    (mkExpansion custId mrr o checkDate k).identifiedDate = checkDate ∧
    ∀ cd ∈ (mkExpansion custId mrr o checkDate k).closedDate, inWindow cd := by
  refine ⟨rfl, ?_⟩
  intro cd hcd
  unfold mkExpansion at hcd
  simp only at hcd
  split_ifs at hcd with h1 h2 h3
  · cases hcd
  · cases hcd
  · simp only [Option.mem_def, Option.some.injEq] at hcd
    subst hcd
    unfold inWindow DATA_START_DATE DATA_END_DATE at *
    omega
  · simp only [Option.mem_def, Option.some.injEq] at hcd
    subst hcd
    unfold inWindow DATA_START_DATE DATA_END_DATE at *
    omega

/-- Expansion-loop rows are dated inside the window. -/
theorem expLoop_dates (custId : String) (mrr : ℚ) (o : ExpOracle)
    (hdel : ∀ k, 0 ≤ o.closeDelay k) :
    ∀ (checkDate : ℤ) (k : ℕ), 0 ≤ checkDate →
      ∀ e ∈ expLoop custId mrr o checkDate k,
        inWindow e.identifiedDate ∧ ∀ cd ∈ e.closedDate, inWindow cd := by
  intro checkDate k
  induction checkDate, k using expLoop.induct custId mrr o with
  | case1 checkDate k h ih =>
      intro h0 e he
      rw [expLoop, if_pos h] at he
      rcases List.mem_append.mp he with he' | he'
      · rcases hroll : o.ariseRoll k with _ | _
        · rw [hroll] at he'
          simp at he'
        · rw [hroll] at he'
          simp only [if_pos, List.mem_singleton] at he'
          subst he'
          obtain ⟨hid, hcd⟩ := mkExpansion_dates custId mrr o checkDate k h0 (hdel k)
          rw [hid]
          exact ⟨⟨h0, h⟩, hcd⟩
      · exact ih (by omega) e he'
  | case2 checkDate k h =>
      intro h0 e he
      rw [expLoop, if_neg h] at he
      cases he

/-- Every expansion row of an in-window customer is dated inside the
window. -/
theorem generateExpansions_dates (c : Customer) (o : ExpOracle)
    (hdel : ∀ k, 0 ≤ o.closeDelay k) (hs : inWindow c.startDate) :
    ∀ e ∈ generateExpansions c o,
      inWindow e.identifiedDate ∧ ∀ cd ∈ e.closedDate, inWindow cd := by
  intro e he
  unfold generateExpansions at he
  split_ifs at he with hst
  · cases he
  · exact expLoop_dates c.customerId c.currentMrr o hdel (c.startDate + 90) 0
      (by have := hs.1; unfold DATA_START_DATE at this; omega) e he

/-- Inversion of a successful `mapM` over `Option`: every output element
comes from some input element. -/
theorem mapM_option_mem {α β : Type} (f : α → Option β) :
    ∀ {l : List α} {res : List β}, l.mapM f = some res →
      ∀ b ∈ res, ∃ a ∈ l, f a = some b := by
  intro l
  induction l with
  | nil =>
      intro res h b hb
      simp only [List.mapM_nil, Option.pure_def, Option.some.injEq] at h
      subst h
      cases hb
  | cons a as ih =>
      intro res h b hb
      simp only [List.mapM_cons, Option.pure_def, Option.bind_eq_bind,
        Option.bind_eq_some, Option.some.injEq] at h
      obtain ⟨x, hfa, xs, hms, hcons⟩ := h
      subst hcons
      rcases List.mem_cons.mp hb with rfl | hb'
      · exact ⟨a, List.mem_cons_self _ _, hfa⟩
      · obtain ⟨a', ha', hfa'⟩ := ih hms b hb'
        exact ⟨a', List.mem_cons_of_mem _ ha', hfa'⟩

/-- Support bounds of all bounded random draws of one run: `randint(30, 365)`
for rep starts, `randint(1, 14)` for loss delays, `randint(1, 28)` for churn
delays, `randint(30, 90)` for expansion close delays. -/
def PipelineOracleBounds (po : PipelineOracle) : Prop :=
  (∀ i, 30 ≤ po.rep.startOffset i ∧ po.rep.startOffset i ≤ 365) ∧
  (∀ i, 1 ≤ (po.opp i).lossDelay ∧ (po.opp i).lossDelay ≤ 14) ∧
  (∀ i k, 1 ≤ (po.churn i).churnDelay k ∧ (po.churn i).churnDelay k ≤ 28) ∧
  (∀ i k, 30 ≤ (po.expansion i).closeDelay k ∧ (po.expansion i).closeDelay k ≤ 90)

/-- Every opportunity of a run is dated inside the window. -/
theorem pipelineOpps_dates (po : PipelineOracle) (hb : PipelineOracleBounds po) :
    ∀ o' ∈ (pipelineOppRows po).1,
      inWindow o'.createdDate ∧ ∀ cd ∈ o'.closeDate, inWindow cd := by
  intro o' ho'
  unfold pipelineOppRows generateOpportunities at ho'
  simp only [List.mem_map] at ho'
  obtain ⟨row, hrow, rfl⟩ := ho'
  obtain ⟨p, hp, rfl⟩ := hrow
  have hlead : p.2 ∈ pipelineLeads po := mem_of_mem_enumFrom hp
  have hl := generateLeads_dates (pipelineSalesReps po) po.lead p.2 hlead
  have := generateOpportunity_dates p.2 ("OPP_" ++ po.oppHex p.1) (po.opp p.1)
    (hb.2.1 p.1).1 hl
  exact ⟨this.1, this.2.1⟩

/-- Every stage transition of a run is dated inside the window. -/
theorem pipelineTransitions_dates (po : PipelineOracle)
    (hb : PipelineOracleBounds po) :
    ∀ t ∈ (pipelineOppRows po).2, inWindow t.transitionDate := by
  intro t ht
  unfold pipelineOppRows generateOpportunities at ht
  simp only [List.mem_flatten, List.mem_map] at ht
  obtain ⟨l', ⟨row, ⟨p, hp, rfl⟩, rfl⟩, htl⟩ := ht
  have hlead : p.2 ∈ pipelineLeads po := mem_of_mem_enumFrom hp
  have hl := generateLeads_dates (pipelineSalesReps po) po.lead p.2 hlead
  exact (generateOpportunity_dates p.2 ("OPP_" ++ po.oppHex p.1) (po.opp p.1)
    (hb.2.1 p.1).1 hl).2.2 t htl

/-- Every customer of a run (before the MRR stage) is dated inside the
window. -/
theorem pipelineCustomers1_dates (po : PipelineOracle)
    (hb : PipelineOracleBounds po) :
    ∀ c ∈ pipelineCustomers1 po,
      inWindow c.startDate ∧ ∀ cd ∈ c.churnDate, inWindow cd := by
  intro c hc
  unfold pipelineCustomers1 generateCustomers at hc
  obtain ⟨p, hp, hgc⟩ := List.mem_filterMap.mp hc
  have hopp : p.2 ∈ (pipelineOppRows po).1 := mem_of_mem_enumFrom hp
  exact generateCustomer_dates p.2 _ _ _ c (fun k => (hb.2.2.1 p.1 k).1) hgc
    (pipelineOpps_dates po hb p.2 hopp).2

/-- Every customer of a run as persisted is dated inside the window. -/
theorem pipelineCustomers2_dates (po : PipelineOracle)
    (hb : PipelineOracleBounds po) :
    ∀ c ∈ pipelineCustomers2 po,
      inWindow c.startDate ∧ ∀ cd ∈ c.churnDate, inWindow cd := by
  intro c hc
  unfold pipelineCustomers2 pipelineMrrRows at hc
  simp only [List.mem_map] at hc
  obtain ⟨r, ⟨p, hp, rfl⟩, rfl⟩ := hc
  have hc1 : p.2 ∈ pipelineCustomers1 po := mem_of_mem_enumFrom hp
  have hfix := generateMrrMovements_fixed p.2 (po.mrr p.1)
  have hd := pipelineCustomers1_dates po hb p.2 hc1
  rw [hfix.2.2.1, hfix.2.1]
  exact hd

/-- All date-window facts claim C7 asserts of the ten collections, with the
sales-rep correction. -/
def gdDatesOk (gd : GeneratedData) : Prop :=
  (∀ r ∈ gd.salesReps,
    DATA_START_DATE - 365 ≤ r.startDate ∧ r.startDate ≤ DATA_START_DATE - 30) ∧
  (∀ l ∈ gd.leads, inWindow l.createdDate) ∧
  (∀ o ∈ gd.opportunities,
    inWindow o.createdDate ∧ ∀ cd ∈ o.closeDate, inWindow cd) ∧
  (∀ t ∈ gd.stageTransitions, inWindow t.transitionDate) ∧
  (∀ c ∈ gd.customers,
    inWindow c.startDate ∧ ∀ cd ∈ c.churnDate, inWindow cd) ∧
  (∀ u ∈ gd.usageEvents, inWindow u.eventDate) ∧
  (∀ m ∈ gd.marketingSpend, inWindow m.periodStart ∧ inWindow m.periodEnd) ∧
  (∀ mv ∈ gd.mrrMovements, inWindow mv.movementDate) ∧
  (∀ sv ∈ gd.npsSurveys, inWindow sv.surveyDate) ∧
  (∀ e ∈ gd.expansionOpportunities,
    inWindow e.identifiedDate ∧ ∀ cd ∈ e.closedDate, inWindow cd)

/-- The window property over the (possibly crashed) result of a run. -/
def generateAllDatesOk (r : Option GeneratedData) : Prop :=
  ∀ gd ∈ r, gdDatesOk gd

/-- C7 (amended): in every completed generation run whose bounded draws stay
in their `randint` supports, all date fields of the nine later collections
lie in `[DATA_START_DATE, DATA_END_DATE]`, while every SalesRep's
`start_date` lies 30–365 days *before* `DATA_START_DATE` — the one
collection the original claim fails on (see the counterexample). -/
theorem c7_no_entity_outside_window (po : PipelineOracle)
    (hb : PipelineOracleBounds po) :
    generateAllDatesOk (generateAll po) := by
  intro gd hgd
  unfold generateAll at hgd
  rcases hus : (pipelineCustomers1 po).enum.mapM
      (fun p => generateUsageEvents p.2 (po.usage p.1)) with _ | usageRows
  · rw [hus] at hgd
    cases hgd
  · rw [hus] at hgd
    simp only [Option.mem_def, Option.some.injEq] at hgd
    subst hgd
    refine ⟨?_, ?_, ?_, ?_, ?_, ?_, ?_, ?_, ?_, ?_⟩
    · exact generateSalesReps_dates po.rep hb.1
    · exact generateLeads_dates (pipelineSalesReps po) po.lead
    · exact pipelineOpps_dates po hb
    · exact pipelineTransitions_dates po hb
    · exact pipelineCustomers2_dates po hb
    · intro u hu
      obtain ⟨row, hrow, hur⟩ := List.mem_flatten.mp hu
      obtain ⟨p, hp, hfp⟩ := mapM_option_mem _ hus row hrow
      have hc1 : p.2 ∈ pipelineCustomers1 po := mem_of_mem_enumFrom hp
      have hd := pipelineCustomers1_dates po hb p.2 hc1
      exact generateUsageEvents_dates p.2 (po.usage p.1) row hfp hd.1 hd.2 u hur
    · exact generateMarketingSpend_dates po.mkt
    · intro mv hmv
      obtain ⟨row, hrow, hmr⟩ := List.mem_flatten.mp hmv
      simp only [List.mem_map] at hrow
      obtain ⟨r, hr, rfl⟩ := hrow
      unfold pipelineMrrRows at hr
      simp only [List.mem_map] at hr
      obtain ⟨p, hp, rfl⟩ := hr
      have hc1 : p.2 ∈ pipelineCustomers1 po := mem_of_mem_enumFrom hp
      have hd := pipelineCustomers1_dates po hb p.2 hc1
      exact generateMrrMovements_dates p.2 (po.mrr p.1) hd.1 hd.2 mv hmr
    · intro sv hsv
      obtain ⟨row, hrow, hsr⟩ := List.mem_flatten.mp hsv
      simp only [List.mem_map] at hrow
      obtain ⟨p, hp, rfl⟩ := hrow
      have hc2 : p.2 ∈ pipelineCustomers2 po := mem_of_mem_enumFrom hp
      have hd := pipelineCustomers2_dates po hb p.2 hc2
      exact generateNpsSurveys_dates p.2 (po.nps p.1) hd.1 hd.2 sv hsr
    · intro e he
      obtain ⟨row, hrow, her⟩ := List.mem_flatten.mp he
      simp only [List.mem_map] at hrow
      obtain ⟨p, hp, rfl⟩ := hrow
      have hc2 : p.2 ∈ pipelineCustomers2 po := mem_of_mem_enumFrom hp
      have hd := pipelineCustomers2_dates po hb p.2 hc2
      exact generateExpansions_dates p.2 (po.expansion p.1)
        (fun k => by have := (hb.2.2.2 p.1 k).1; omega) hd.1 e her

/-- C7 witness oracle: constant draws inside every support. -/
def po7w : PipelineOracle :=
  { rep := { perfDraw := fun _ => 1, startOffset := fun _ => 100,
             nameDraw := fun _ => "Rep", segmentFallback := fun _ => "SMB" }
    lead := leadOracleRunA
    opp := fun _ => oppOracleW8
    oppHex := fun i => toString i
    churn := fun _ => churnOracleW
    custHex := fun i => toString i
    custFakeCompany := fun _ => "Fallback Co"
    usage := fun _ => { noise := fun _ => ⟨1, 1, 1, 1, 1⟩,
                        eventHex := fun i => toString i }
    mkt := { spendJitter := fun _ _ => 1, spendHex := fun _ _ => "S" }
    mrr := fun _ => mrrOracleW
    nps := fun _ => { respondRoll := fun _ => false, categoryPick := fun _ => 0,
                      promoterHigh := fun _ => false, passiveHigh := fun _ => false,
                      detractorPick := fun _ => 0, textPick := fun _ => 0,
                      surveyHex := fun _ => "N" }
    expansion := fun _ => { ariseRoll := fun _ => false, pctDraw := fun _ => 1/4,
                            winRoll := fun _ => false, actualJitter := fun _ => 1,
                            closeDelay := fun _ => 45, upsellPick := fun _ => true,
                            expHex := fun _ => "E" } }

/-- C7 witness: the amended window property for the concrete run. -/
theorem c7_no_entity_outside_window_witness :
    generateAllDatesOk (generateAll po7w) :=
  c7_no_entity_outside_window po7w
    ⟨fun i => by norm_num [po7w],
     fun i => by norm_num [po7w, oppOracleW8],
     fun i k => by norm_num [po7w, churnOracleW],
     fun i k => by norm_num [po7w]⟩

/-- C7 counterexample oracle: a rep start offset of 100 days (inside
`randint(30, 365)`). -/
def repOracleX7 : RepOracle :=
  { perfDraw := fun _ => 1, startOffset := fun _ => 100,
    nameDraw := fun _ => "Rep Name", segmentFallback := fun _ => "SMB" }

/-- C7 counterexample: the first generated sales rep is dated 100 days before
`DATA_START_DATE`, outside the claimed window — rep start dates are always
30–365 days before the window by construction. -/
theorem c7_counterexample :
    mkSalesRep 0 repOracleX7 ∈ generateSalesReps repOracleX7 ∧
    (mkSalesRep 0 repOracleX7).startDate = -100 ∧
    ¬ inWindow (mkSalesRep 0 repOracleX7).startDate := by
  refine ⟨List.mem_map_of_mem _ (by decide), ?_, ?_⟩
  · norm_num [mkSalesRep, repOracleX7, DATA_START_DATE]
  · norm_num [inWindow, mkSalesRep, repOracleX7, DATA_START_DATE, DATA_END_DATE]

end RevenueIntel
